import Mathlib

/-!
Verification of the pico8code language-server core against its specification.

The definitions below are a shallow embedding of the TypeScript sources:
- `src/server/src/document/typing.ts` (the Type Algebra: `represent`, `parse`,
  `simplify`, `equivalent`),
- `src/server/src/util.ts` (`delimitSubstring`, `splitCarefully`,
  `buildBinaryTree`, `flattenBinaryTree`, `resolveListOfTypes`, `flattenType`,
  `escapeLuaTableStringKey`, `rangeContains`),
- `src/server/src/document/explore.ts` (scopes, variables, position LUTs,
  the statement handlers the claims mention),
- `src/server/src/documents.ts` (the Document session: backup/restore on parse
  failure, hover/completion/signature-help queries).

Modelling conventions, used throughout and noted again at the relevant spots:
- JavaScript values of the `LuaType` union are modelled by the inductive
  `LuaType` below.  Atoms are arbitrary strings in the source (`'nil'`,
  `'number'`, but also `'any'` and other out-of-union strings the code
  produces), hence the `str` constructor carries a `String`.
- The JavaScript `null` value (produced by `buildBinaryTree` on an empty list
  and stored into type positions by `simplify`) is modelled by the dedicated
  constructor `jsnull`.
- JavaScript exceptions (`SyntaxError`, `TypeError`) are modelled with
  `Except String`.
- `===` on two JavaScript objects is reference equality.  Inductive values
  model a sharing-free heap: two composite values are never reference-equal,
  while strings and `null` compare by value.  The embedded comparisons reflect
  exactly that.
- The `typeFrom`/`typeBuilding` parameters of `represent` and `simplify`
  detect cyclic object graphs via reference identity (`typeFrom === type`).
  On acyclic heaps - the only heaps inductive values can denote - a node is
  never reference-equal to a strict descendant, so that check never fires and
  is omitted from the embedding.
- Recursion in `represent`, `simplify` and `equivalent` is cut by the source's
  depth guard (`MAX_DEPTH = 5`, checked before every recursive call), so each
  embedded function carries a structural fuel argument large enough that the
  fuel-exhausted branch is unreachable from the entry points.
-/

/-- `LuaType` from typing.ts: atoms are JavaScript strings; `arr` is
`LuaType[]`; `fn` is `LuaFunction {parameters, vararg?, return}`; `tbl` is
`LuaTable {entries, sequence, true?, false?, typed?}` with `typed` a record of
optional `string`/`number`/`boolean` slots; `or` is the binary union; `jsnull`
is the JavaScript `null` value that `simplify` can produce. -/
inductive LuaType where
  | str : String → LuaType
  | arr : List LuaType → LuaType
  | fn : List (String × LuaType) → Option LuaType → LuaType → LuaType
  | tbl : List (String × LuaType) → List (Nat × LuaType) →
      Option LuaType → Option LuaType →
      Option (Option LuaType × Option LuaType × Option LuaType) → LuaType
  | or : LuaType → LuaType → LuaType
  | jsnull : LuaType

/-- JavaScript truthiness of a `LuaType` value: `null` and the empty string
are falsy, every other value of the union (objects, non-empty strings) is
truthy. -/
def truthy : LuaType → Bool
  | .jsnull => false
  | .str s => s != ""
  | _ => true

/-- Truthiness of an optional value (`undefined` is falsy). -/
def truthyO : Option LuaType → Bool
  | some t => truthy t
  | none => false

/-- `buildBinaryTree(nodes, 'or')` from util.ts:
`nodes.reduce((acc, cur) => acc ? {or: [acc, cur]} : cur, null)`.
The accumulator is tested for truthiness, the `null` start is `none`. -/
def buildBinaryTree (nodes : List LuaType) : Option LuaType :=
  nodes.foldl
    (fun acc cur =>
      some (match acc with
        | some a => if truthy a then .or a cur else cur
        | none => cur))
    none

/-- `flattenBinaryTree(root, 'or')` from util.ts, composed with the `?? [x]`
fallback its call sites apply to the two children: an `or` chain is flattened
into the list of its non-`or` leaves.  (On a `jsnull` child the source throws
inside `hasOwnProperty.call`; such a child is kept as a leaf here - no value
built by the algebra ever places `null` under an `or` node.) -/
def flattenOr : LuaType → List LuaType
  | .or a b =>
    (match a with
      | .or x y => flattenOr (.or x y)
      | x => [x]) ++
    (match b with
      | .or x y => flattenOr (.or x y)
      | x => [x])
  | t => [t]

/-- Whether a value is a JavaScript string (the `'string' === typeof t` test
used by the algebra). -/
def isAtomStr : LuaType → Bool
  | .str _ => true
  | _ => false

/-- Whether a value has an own `or` property (the
`Object.prototype.hasOwnProperty.call(t, 'or')` test). -/
def isOrNode : LuaType → Bool
  | .or _ _ => true
  | _ => false

/-- The `typeA === typeB` shortcut of `equivalent`: value equality on strings
and on `null`, never true across two composite values of a sharing-free
heap. -/
def atomLikeEq : LuaType → LuaType → Bool
  | .str a, .str b => a == b
  | .jsnull, .jsnull => true
  | _, _ => false

/-- `equivalent(typeA, typeB, depth)` from typing.ts. The checks appear in
source order: the `===` shortcut, the `'string' === typeof` test, the
`MAX_DEPTH < depth` recursion guard (which returns `false`), then the
array / function / table / union cases.  The function case ignores parameter
names and varargs, the table case compares only `entries`, and the union case
checks mutual inclusion of the flattened member lists, remembering in
`visited` which members of the shorter list were matched.
(`fuel` is structural bookkeeping; the depth guard keeps every call from the
entry point within fuel 7.)  For `typeA` equal to `undefined`/`null` and
`typeB` a union the source throws inside `hasOwnProperty.call`; the embedding
returns `false` there - no execution of the algebra reaches that pairing with
a live union operand. -/
def equivalentAux (fuel : Nat) (typeA typeB : LuaType) (d : Nat) : Bool :=
  match fuel with
  | 0 => false
  | fuel + 1 =>
    match typeA, typeB with
    | .str a, .str b => a == b
    | .jsnull, .jsnull => true
    | a, b =>
      if isAtomStr a || isAtomStr b then false
      else if 5 < d then false
      else match a, b with
      | .arr as, .arr bs =>
        (as.length == bs.length) &&
        (as.zip bs).all (fun p => equivalentAux fuel p.1 p.2 (d+1))
      | .arr _, _ => false
      | _, .arr _ => false
      | .fn ps _ ra, .fn qs _ rb =>
        (ps.length == qs.length) &&
        ((ps.zip qs).all (fun p => equivalentAux fuel p.1.2 p.2.2 (d+1))) &&
        equivalentAux fuel ra rb (d+1)
      | .fn _ _ _, _ => false
      | _, .fn _ _ _ => false
      | .tbl ea _ _ _ _, .tbl eb _ _ _ _ =>
        (ea.length == eb.length) &&
        ea.all (fun kv =>
          match (eb.find? (fun q => q.1 == kv.1)).map (fun q => q.2) with
          | some it => truthy it && equivalentAux fuel kv.2 it (d+1)
          | none => false)
      | .tbl _ _ _ _ _, _ => false
      | _, .tbl _ _ _ _ _ => false
      | .or x y, .or z w =>
        let flatA := flattenOr (.or x y)
        let flatB := flattenOr (.or z w)
        let sl := if flatA.length < flatB.length then (flatA, flatB) else (flatB, flatA)
        let shortest := sl.1
        let longest := sl.2
        -- every type in `longest` must also be in `shortest`
        (longest.all (fun it =>
          (shortest.findIdx? (fun e => equivalentAux fuel e it (d+1))).isSome)) &&
        -- every type in `shortest` must also be in `longest`, unless visited
        (let visited := longest.filterMap
          (fun it => shortest.findIdx? (fun e => equivalentAux fuel e it (d+1)));
        (shortest.enum.all (fun ki =>
          visited.contains ki.1 ||
          longest.any (fun e => equivalentAux fuel e ki.2 (d+1)))))
      | _, _ => false

/-- `equivalent(a, b)` with the depth defaulted to 1 by the
`undefined === depth` shim. -/
def equivalent (typeA typeB : LuaType) : Bool := equivalentAux 7 typeA typeB 1

/-- Left-to-right effectful map over a list, propagating the first thrown
exception (the behavior of `Array.prototype.map` under `throw`). -/
def exceptMapM {α β : Type} (f : α → Except String β) : List α → Except String (List β)
  | [] => .ok []
  | a :: l => (f a).bind (fun y => (exceptMapM f l).map (fun ys => y :: ys))

/-- One character of `escapeLuaTableStringKey` from util.ts. -/
def escLuaKeyChar (c : Char) : List Char :=
  if c == '"' || c == '\\' then ['\\', c]
  else if c == '\n' then ['\\', 'n']
  else if c == '\r' then ['\\', 'r']
  else if c == Char.ofNat 0x2028 then '\\' :: "u2028".data
  else if c == Char.ofNat 0x2029 then '\\' :: "u2029".data
  else [c]

/-- `escapeLuaTableStringKey(key)` from util.ts. -/
def escapeLuaTableStringKey (key : String) : String :=
  String.mk (key.data.flatMap escLuaKeyChar)

/-- JavaScript `\w` (word character). -/
def isWordChar (c : Char) : Bool :=
  ('a' ≤ c && c ≤ 'z') || ('A' ≤ c && c ≤ 'Z') || ('0' ≤ c && c ≤ '9') || c == '_'

/-- The `/^\d|\W/.test(key) || !key` test of `represent`'s table case: the key
gets quoted when it starts with a digit, contains a non-word character, or is
empty. -/
def keyNeedsQuoting (key : String) : Bool :=
  (match key.data.head? with
    | some c => '0' ≤ c && c ≤ '9'
    | none => false)
  || key.data.any (fun c => !isWordChar c)
  || key == ""

/-- Rendering of one table entry key. -/
def reprTableKey (key : String) : String :=
  if keyNeedsQuoting key then "[\"" ++ escapeLuaTableStringKey key ++ "\"]"
  else key

/-- `represent(type, depth)` from typing.ts.  Atoms render as themselves
(before the depth guard, as in the source); past `MAX_DEPTH` the guard yields
`"*...*"`.  Arrays render `[a, b]`, functions `(x: T, ...: V) -> R` with the
return parenthesized when it is a union, tables `{ [: k]: T, [true]: T,
[false]: T, key: T, [1]: T }` in the source's section order
(typed, true, false, entries, sequence) and `{}` when all sections are empty,
unions `A | B`.  `represent(null)` throws in the source
(`hasOwnProperty.call(null, 'or')`), hence the error on `jsnull`.
The `typed` slots render in the fixed order string, number, boolean - the
insertion order every `simplify`-built `typed` object has. -/
def representAux (fuel : Nat) (type : LuaType) (d : Nat) : Except String String :=
  match fuel with
  | 0 => .error "fuel exhausted (unreachable from the entry point)"
  | fuel + 1 =>
    match type with
    | .str s => .ok s
    | t =>
      if 5 < d then .ok "*...*"
      else match t with
      | .str s => .ok s
      | .arr xs =>
        (exceptMapM (fun it => representAux fuel it (d+1)) xs).map
          (fun l => "[" ++ String.intercalate ", " l ++ "]")
      | .fn ps vo r => do
        let params ← exceptMapM (fun (p : String × LuaType) =>
          (representAux fuel p.2 (d+1)).map (fun t' => p.1 ++ ": " ++ t')) ps
        let paramsS := String.intercalate ", " params
        -- `type.vararg ? (params && ", ") + "...: " + represent(...) : ""`
        let vararg ← match vo with
          | some v =>
            if truthy v then
              (representAux fuel v (d+1)).map
                (fun t' => (if paramsS == "" then "" else ", ") ++ "...: " ++ t')
            else pure ""
          | none => pure ""
        let retRepr ← representAux fuel r (d+1)
        let ret := if isOrNode r then "(" ++ retRepr ++ ")" else retRepr
        pure ("(" ++ paramsS ++ vararg ++ ") -> " ++ ret)
      | .tbl es seq tr fl ty => do
        let entries ← exceptMapM (fun (kv : String × LuaType) =>
          (representAux fuel kv.2 (d+1)).map
            (fun t' => reprTableKey kv.1 ++ ": " ++ t')) es
        let seqs ← exceptMapM (fun (kv : Nat × LuaType) =>
          (representAux fuel kv.2 (d+1)).map
            (fun t' => "[" ++ toString kv.1 ++ "]: " ++ t')) seq
        -- `type.true ? ... : ""` and `type.false ? ... : ""`
        let trS ← match tr with
          | some t' =>
            if truthy t' then (representAux fuel t' (d+1)).map (fun x => "[true]: " ++ x)
            else pure ""
          | none => pure ""
        let flS ← match fl with
          | some t' =>
            if truthy t' then (representAux fuel t' (d+1)).map (fun x => "[false]: " ++ x)
            else pure ""
          | none => pure ""
        -- `!type.typed ? "" : Object.entries(type.typed).flatMap(... !t ? [] ...)`
        let tyS ← match ty with
          | none => pure ""
          | some z => do
            let sPart ← match z.1 with
              | some t' =>
                if truthy t' then
                  (representAux fuel t' (d+1)).map (fun x => ["[: string]: " ++ x])
                else pure []
              | none => pure ([] : List String)
            let nPart ← match z.2.1 with
              | some t' =>
                if truthy t' then
                  (representAux fuel t' (d+1)).map (fun x => ["[: number]: " ++ x])
                else pure []
              | none => pure ([] : List String)
            let bPart ← match z.2.2 with
              | some t' =>
                if truthy t' then
                  (representAux fuel t' (d+1)).map (fun x => ["[: boolean]: " ++ x])
                else pure []
              | none => pure ([] : List String)
            pure (String.intercalate ", " (sPart ++ nPart ++ bPart))
        let full := String.intercalate ", "
          (([tyS, trS, flS,
             String.intercalate ", " entries,
             String.intercalate ", " seqs]).filter (fun x => x != ""))
        pure (if full == "" then "\x7b\x7d" else "\x7b " ++ full ++ " \x7d")
      | .or a b => do
        let ra ← representAux fuel a (d+1)
        let rb ← representAux fuel b (d+1)
        pure (ra ++ " | " ++ rb)
      | .jsnull => .error "TypeError: Cannot convert undefined or null to object"

/-- `represent(type)` with the depth defaulted to 1. -/
def represent (type : LuaType) : Except String String := representAux 7 type 1

/-- `str.substring(a, b)` on a character list (`0 ≤ a ≤ b` at every use). -/
def sublistChars (s : List Char) (a b : Nat) : List Char := (s.drop a).take (b - a)

/-- JavaScript whitespace relevant to `String.prototype.trim` for the inputs
of this code base (space, tab, line feed, carriage return, vertical tab, form
feed). -/
def isWSChar (c : Char) : Bool :=
  c == ' ' || c == '\t' || c == '\n' || c == '\r' || c == Char.ofNat 11 || c == Char.ofNat 12

/-- `str.trim()` on a character list. -/
def trimChars (s : List Char) : List Char :=
  ((s.dropWhile isWSChar).reverse.dropWhile isWSChar).reverse

/-- The `{` character (written out so no brace appears inside a literal). -/
def obrace : Char := Char.ofNat 123

/-- The `}` character. -/
def cbrace : Char := Char.ofNat 125

/-- Loop of `delimitSubstring` from util.ts; `k` is the scan position, `s` the
recorded start of the first delimited group, `n` the nesting counter. -/
def delimitGo (op cl : Char) : List Char → Nat → Nat → Nat → Except String (Nat × Nat)
  | [], _, _, _ =>
    .error ("No matching '" ++ cl.toString ++ "' for opening '" ++ op.toString ++ "'")
  | c :: rest, k, s, n =>
    if c == op then delimitGo op cl rest (k+1) (if n == 0 then k+1 else s) (n+1)
    else if c == cl then
      if n == 1 then .ok (s, k)
      else if n == 0 then
        .error ("No matching '" ++ op.toString ++ "' for closing '" ++ cl.toString ++ "'")
      else delimitGo op cl rest (k+1) s (n-1)
    else delimitGo op cl rest (k+1) s n

/-- `delimitSubstring(str, open, close)` from util.ts: bounds of the first
substring enclosed by the delimiters, excluding them; throws `SyntaxError`
when unbalanced. -/
def delimitSubstring (s : List Char) (op cl : Char) : Except String (Nat × Nat) :=
  delimitGo op cl s 0 0 0

/-- The opening delimiter paired with a closing one (for `splitCarefully`'s
error message). -/
def openOfClose (c : Char) : Char := if c == ')' then '(' else if c == ']' then '[' else obrace

/-- The closing delimiter paired with an opening one. -/
def closeOfOpen (c : Char) : Char := if c == '(' then ')' else if c == '[' then ']' else cbrace

/-- Membership in the opening half of `pairs = "()[]" ++ braces`. -/
def isOpenDelim (c : Char) : Bool := c == '(' || c == '[' || c == obrace

/-- Membership in the closing half of the delimiter pairs. -/
def isCloseDelim (c : Char) : Bool := c == ')' || c == ']' || c == cbrace

/-- Loop of `splitCarefully` from util.ts: scan position `k`, last cut
position `l`, accumulated parts `r`; bracketed regions are skipped via
`delimitSubstring`, and the `nbCut` limit breaks the loop after that many
cuts.  The scan position grows at every step, so the structural `fuel`
(seeded with `length + 2`) never runs out. -/
def splitGo (sep : Char) (nbCut : Option Nat) (s : List Char) :
    Nat → Nat → Nat → List (List Char) → Except String (List (List Char))
  | 0, _, _, _ => .error "fuel exhausted (unreachable: the scan index grows every step)"
  | fuel + 1, k, l, r =>
    if k < s.length then
      match
        (if isOpenDelim (s.getD k ' ') then
          (delimitSubstring (s.drop k) (s.getD k ' ') (closeOfOpen (s.getD k ' '))).map
            (fun se => (k + se.2, l, r))
        else if isCloseDelim (s.getD k ' ') then
          .error ("No matching '" ++ (openOfClose (s.getD k ' ')).toString ++
            "' for closing '" ++ (s.getD k ' ').toString ++ "'")
        else if s.getD k ' ' == sep then
          .ok (k, k + 1, r ++ [trimChars (sublistChars s l k)])
        else .ok (k, l, r) : Except String (Nat × Nat × List (List Char)))
      with
      | .error e => .error e
      | .ok klr =>
        -- `if (nbCut && r.length === nbCut) break;` then the trailing push
        if (match nbCut with
            | some n => n != 0 && klr.2.2.length == n
            | none => false) then
          .ok (klr.2.2 ++ [trimChars (s.drop klr.2.1)])
        else splitGo sep nbCut s fuel (klr.1 + 1) klr.2.1 klr.2.2
    else .ok (r ++ [trimChars (s.drop l)])

/-- `splitCarefully(str, sep, nbCut)` from util.ts. -/
def splitCarefully (s : List Char) (sep : Char) (nbCut : Option Nat) :
    Except String (List (List Char)) :=
  splitGo sep nbCut s (s.length + 2) 0 0 []

/-- Index of the first occurrence of `"->"` (`str.indexOf("->")`, `none` for
the source's `-1`). -/
def idxOfArrow : List Char → Option Nat
  | [] => none
  | c :: rest =>
    match rest with
    | c2 :: _ =>
      if c == '-' && c2 == '>' then some 0
      else (idxOfArrow rest).map (fun i => i + 1)
    | [] => none

/-- State of the `inner.forEach` fold in `parse`'s table branch:
`keyCounting`, and the table under construction. -/
structure ParseTblState where
  kc : Nat
  ents : List (String × LuaType)
  seqn : List (Nat × LuaType)
  tru : Option LuaType
  fls : Option LuaType
  typd : Option (Option LuaType × Option LuaType × Option LuaType)

/-- JavaScript object-property assignment on an association list: an existing
key is overwritten in place, a new key is appended. -/
def alistInsert {κ β : Type} [BEq κ] (l : List (κ × β)) (k : κ) (v : β) :
    List (κ × β) :=
  if (l.find? (fun p => p.1 == k)).isSome then
    l.map (fun p => if p.1 == k then (p.1, v) else p)
  else l ++ [(k, v)]

/-- `tableType.typed[keyType] = type` (creating the `typed` record when
absent). -/
def typedSet (ty : Option (Option LuaType × Option LuaType × Option LuaType))
    (slot : String) (v : LuaType) :
    Option (Option LuaType × Option LuaType × Option LuaType) :=
  let z := ty.getD (none, none, none)
  if slot == "string" then some (some v, z.2.1, z.2.2)
  else if slot == "number" then some (z.1, some v, z.2.2)
  else some (z.1, z.2.1, some v)

/-- `parse(repr)` from typing.ts, on a character list.  The branches appear in
source order: atoms, the parenthesized case, unions, tables, arrays, function
types, and the final `TypeError`.  Each recursive call works on a strictly
shorter string, so the structural fuel (seeded with `2·length + 4`) never
runs out from the entry point. -/
def parseAux (fuel : Nat) (repr0 : List Char) : Except String LuaType :=
  match fuel with
  | 0 => .error "fuel exhausted (unreachable from the entry point)"
  | fuel + 1 =>
    let repr := trimChars repr0
    if repr == "nil".data || repr == "number".data ||
       repr == "boolean".data || repr == "string".data then
      .ok (.str (String.mk repr))
    else
      -- handles "(type_repr)"
      match
        (if repr.head? == some '(' && repr.getLast? == some ')' then
          match delimitSubstring repr '(' ')' with
          | .error e => some (.error e)
          | .ok se =>
            if se.2 == repr.length - 1 then some (parseAux fuel (sublistChars repr se.1 se.2))
            else none
        else none)
      with
      | some res => res
      | none =>
      -- handles "type_repr_a | type_repr_b"
      match
        (if repr.contains '|' then
          match splitCarefully repr '|' none with
          | .error e => some (.error e)
          | .ok list =>
            if 1 < list.length then
              some ((exceptMapM (parseAux fuel) list).map
                (fun parts => (buildBinaryTree parts).getD .jsnull))
            else none
        else none)
      with
      | some res => res
      | none =>
      -- handles "{ key: type_repr_1, [expr]: type_repr_2, type_repr_3, ... }"
      if repr.head? == some obrace && repr.getLast? == some cbrace then
        match splitCarefully (sublistChars repr 1 (repr.length - 1)) ',' none with
        | .error e => .error e
        | .ok inner =>
          (inner.foldlM
            (fun (st : ParseTblState) (it : List Char) =>
              (match splitCarefully it ':' (some 1) with
              | .error e => .error e
              | .ok parts =>
                match parts with
                | p0 :: p1 :: _ =>
                  if p1 != [] then
                    (parseAux fuel p1).bind (fun ty =>
                      let key := trimChars p0
                      if key.head? == some '[' && key.getLast? == some ']' then
                        let expr := trimChars (sublistChars key 1 (key.length - 1))
                        if expr == "true".data then .ok {st with tru := some ty}
                        else if expr == "false".data then .ok {st with fls := some ty}
                        else if (expr.head? == some '"' && expr.getLast? == some '"')
                            || (expr.head? == some '\'' && expr.getLast? == some '\'') then
                          -- quoted key: quotes stripped, no unescaping happens
                          let unq := String.mk (sublistChars expr 1 (expr.length - 1))
                          .ok {st with ents := alistInsert st.ents unq ty}
                        else
                          match expr.findIdx? (fun c => c == ':') with
                          | none =>
                            .error ("Expected a table typed-key description near " ++
                              String.mk key)
                          | some found =>
                            -- NOTE (as in the source): the colon index is found in
                            -- `expr` but applied to the whole field text `it`
                            (parseAux fuel (it.drop (found + 1))).bind (fun keyType =>
                              match keyType with
                              | .str s =>
                                if s == "string" || s == "number" || s == "boolean" then
                                  .ok {st with typd := typedSet st.typd s ty}
                                else
                                  .error ("Invalid typed " ++
                                    String.mk (it.drop (found + 1)) ++
                                    " for a table typed-key")
                              | _ =>
                                .error ("Invalid typed " ++
                                  String.mk (it.drop (found + 1)) ++
                                  " for a table typed-key"))
                      else .ok {st with ents := alistInsert st.ents (String.mk key) ty})
                  else
                    (parseAux fuel it).bind (fun ty =>
                      .ok {st with seqn := alistInsert st.seqn st.kc ty, kc := st.kc + 1})
                | _ =>
                  (parseAux fuel it).bind (fun ty =>
                    .ok {st with seqn := alistInsert st.seqn st.kc ty, kc := st.kc + 1})
                : Except String ParseTblState))
            ({kc := 1, ents := [], seqn := [], tru := none, fls := none, typd := none}))
          |>.map (fun st => LuaType.tbl st.ents st.seqn st.tru st.fls st.typd)
      else
      -- handles "[type_repr_a, type_repr_b]"
      if repr.head? == some '[' && repr.getLast? == some ']' then
        match splitCarefully (sublistChars repr 1 (repr.length - 1)) ',' none with
        | .error e => .error e
        | .ok inner => (exceptMapM (parseAux fuel) inner).map .arr
      else
      -- handles "(param: type_repr, ...) -> type_repr"
      if (idxOfArrow repr).isSome then
        match delimitSubstring repr '(' ')' with
        | .error e => .error e
        | .ok ps =>
          match splitCarefully (sublistChars repr ps.1 ps.2) ',' none with
          | .error e => .error e
          | .ok params =>
            -- `repr.substr(paramEnd).indexOf("->")`: `-1 + 2 = 1` when absent
            let arrowShift := match idxOfArrow (repr.drop ps.2) with
              | some a => a + 2
              | none => 1
            (parseAux fuel (repr.drop (ps.2 + arrowShift))).bind (fun rets =>
              (if (match params with
                  | p0 :: _ => p0 != ([] : List Char)
                  | [] => false) then
                params.foldlM
                  (fun (acc : List (String × LuaType) × Option LuaType) (it : List Char) =>
                    -- `it.indexOf(":")` gives -1 when absent:
                    -- the name is then `substring(0, -1) = ""` and the whole
                    -- text is parsed as the type
                    (parseAux fuel (match it.findIdx? (fun c => c == ':') with
                      | some co => it.drop (co + 1)
                      | none => it)).bind (fun ty =>
                      let name := trimChars (match it.findIdx? (fun c => c == ':') with
                        | some co => it.take co
                        | none => [])
                      if name == "...".data then .ok (acc.1, some ty)
                      else .ok (acc.1 ++ [(String.mk name, ty)], acc.2)))
                  (([], none) : List (String × LuaType) × Option LuaType)
              else .ok (([], none) : List (String × LuaType) × Option LuaType)).bind
                (fun pv =>
                  -- `['type']` becomes `'type'`
                  let ret := match rets with
                    | .arr l => if l.length == 1 then l.headD .jsnull else .arr l
                    | x => x
                  -- `if (varargType) fnType.vararg = varargType`
                  let vo := match pv.2 with
                    | some v => if truthy v then some v else none
                    | none => none
                  .ok (.fn pv.1 vo ret)))
      else .error ("'" ++ String.mk repr ++ "' is not a recognized type representation")

/-- `parse(repr)` on a character list, with enough fuel for every input. -/
def parseChars (s : List Char) : Except String LuaType := parseAux (2 * s.length + 4) s

/-- `parse(repr)` from typing.ts. -/
def parseType (s : String) : Except String LuaType := parseChars s.data

/-- Lookup of a numeric key in the `sequence` record. -/
def seqLookup (seq : List (Nat × LuaType)) (k : Nat) : Option LuaType :=
  (seq.find? (fun p => p.1 == k)).map (fun p => p.2)

/-- `delete sequence[k]` on the `sequence` record. -/
def seqRemove (seq : List (Nat × LuaType)) (k : Nat) : List (Nat × LuaType) :=
  seq.filter (fun p => p.1 != k)

/-- The `while (equivalent(sequence[keyCounting], typedNumber)) delete
sequence[keyCounting++];` loop of `simplify`'s table case.  When the key is
absent the source computes `equivalent(undefined, typedNumber)`, which is
`false` for every value the loop can carry except a union, on which
`hasOwnProperty.call(undefined, ...)` throws.  A key is removed at every
step, so the fuel (seeded with `length + 1`) never runs out. -/
def foldAway (fuel : Nat) (seq : List (Nat × LuaType)) (tn : LuaType) (k : Nat) :
    Except String (List (Nat × LuaType)) :=
  match fuel with
  | 0 => .error "fuel exhausted (unreachable: a key is removed at every step)"
  | fuel + 1 =>
    match seqLookup seq k with
    | none =>
      if isOrNode tn then .error "TypeError: Cannot convert undefined or null to object"
      else .ok seq
    | some v =>
      if equivalent v tn then foldAway fuel (seqRemove seq k) tn (k + 1)
      else .ok seq

/-- The `for` loop of `simplify`'s union case.  Every branch of the loop body
ends in `break`, so only the first flattened member is ever examined: atoms,
tables and arrays are pushed into the (still empty) result list, functions
are dropped (their branch breaks before pushing anything).  An `or` member
cannot come out of `flattenBinaryTree` and makes the source throw; a `null`
member makes the source throw while rendering that error's text. -/
def simplifyUnionLoop (flat : List LuaType) : Except String (List LuaType) :=
  match flat with
  | [] => .ok []
  | it :: _ =>
    match it with
    | .str s => .ok [.str s]
    | .fn _ _ _ => .ok []
    | .tbl es sq tr fl ty => .ok [.tbl es sq tr fl ty]
    | .arr xs => .ok [.arr xs]
    | .or _ _ => .error "TypeError: Found unhandled type as part of a union"
    | .jsnull => .error "TypeError: Cannot convert undefined or null to object"

/-- `x && simplify(x, ...)` on an optional slot, for a given simplifier `sf`:
a missing slot stays missing, a falsy value short-circuits, anything else is
simplified. -/
def optAndThen (sf : LuaType → Except String LuaType) :
    Option LuaType → Except String (Option LuaType)
  | some v => if truthy v then (sf v).map some else pure (some v)
  | none => pure none

/-- Mapping a simplifier over the values of an association list (the
`Object.fromEntries(Object.entries(x).map(...))` pattern of `simplify`). -/
def pairMapM {κ : Type} (sf : LuaType → Except String LuaType)
    (l : List (κ × LuaType)) : Except String (List (κ × LuaType)) :=
  exceptMapM (fun p => (sf p.2).map (fun t' => (p.1, t'))) l

/-- The `if (sequence[1] && (!typedNumber || equivalent(sequence[1],
typedNumber)))` block of `simplify`'s table case: when slot 1 holds a truthy
value compatible with `typedNumber`, the leading run of equivalent sequence
entries is folded away and that value becomes the new `typedNumber`. -/
def tblSeqStep (seq1 : List (Nat × LuaType)) (tn0 : Option LuaType) :
    Except String (List (Nat × LuaType) × Option LuaType) :=
  match seqLookup seq1 1 with
  | some v1 =>
    if truthy v1 && (!truthyO tn0 || (match tn0 with
        | some tv => equivalent v1 tv
        | none => false)) then
      (foldAway ((seqRemove seq1 1).length + 1) (seqRemove seq1 1) v1 2).map
        (fun s' => (s', some v1))
    else pure (seq1, tn0)
  | none => pure (seq1, tn0)

/-- `r.typed = (type.typed || typedNumber) && {string: ..., number:
typedNumber, boolean: ...}` from `simplify`'s table case. -/
def tblTypedStep (sf : LuaType → Except String LuaType)
    (ty : Option (Option LuaType × Option LuaType × Option LuaType))
    (nb : Option LuaType) :
    Except String (Option (Option LuaType × Option LuaType × Option LuaType)) :=
  if ty.isSome || truthyO nb then do
    let sS ← optAndThen sf (ty.bind (fun z => z.1))
    let bS ← optAndThen sf (ty.bind (fun z => z.2.2))
    pure (some (sS, nb, bS))
  else pure none

/-- The table case of `simplify`, with the recursive `simplify(_, depth+1)`
call abstracted as `sf`: simplify the `sequence` values and the
`typed.number` slot, fold the leading run of sequence entries equivalent to
the first one into `typedNumber`, then rebuild `entries`, `true`, `false`
and the `typed` record. -/
def tblSimplify (sf : LuaType → Except String LuaType)
    (es : List (String × LuaType)) (seq : List (Nat × LuaType))
    (tr fl : Option LuaType)
    (ty : Option (Option LuaType × Option LuaType × Option LuaType)) :
    Except String LuaType := do
  let seq1 ← pairMapM sf seq
  -- `let typedNumber = type.typed?.number && simplify(...)`
  let tn0 ← optAndThen sf (ty.bind (fun z => z.2.1))
  let st ← tblSeqStep seq1 tn0
  let es' ← pairMapM sf es
  let tr' ← optAndThen sf tr
  let fl' ← optAndThen sf fl
  let ty' ← tblTypedStep sf ty st.2
  pure (.tbl es' st.1 tr' fl' ty')

/-- The function case of `simplify`: parameters, `vararg` (an `x && ...`
slot) and the return type are simplified. -/
def fnSimplify (sf : LuaType → Except String LuaType)
    (ps : List (String × LuaType)) (vo : Option LuaType) (r : LuaType) :
    Except String LuaType := do
  let ps' ← pairMapM sf ps
  let vo' ← optAndThen sf vo
  let r' ← sf r
  pure (.fn ps' vo' r')

/-- The union case of `simplify`: flatten, simplify each member, feed the
result to the loop that only examines the first member, and rebuild
(`buildBinaryTree(r, 'or')!` is JavaScript `null` when the loop pushed
nothing). -/
def unionSimplify (sf : LuaType → Except String LuaType) (a b : LuaType) :
    Except String LuaType := do
  let flat ← exceptMapM sf (flattenOr (.or a b))
  let r ← simplifyUnionLoop flat
  pure ((buildBinaryTree r).getD .jsnull)

/-- `simplify(type, depth)` from typing.ts.  Atoms return themselves; past
`MAX_DEPTH` the input is returned unchanged; the array / function / table /
union cases are the dedicated functions above, with the recursive call
instantiated at `depth+1`.  `simplify(null)` throws inside
`hasOwnProperty.call`. -/
def simplifyAux (fuel : Nat) (type : LuaType) (d : Nat) : Except String LuaType :=
  match fuel with
  | 0 => .error "fuel exhausted (unreachable from the entry point)"
  | fuel + 1 =>
    match type with
    | .str s => .ok (.str s)
    | t =>
      if 5 < d then .ok t
      else match t with
      | .str s => .ok (.str s)
      | .arr xs => (exceptMapM (fun it => simplifyAux fuel it (d+1)) xs).map .arr
      | .fn ps vo r => fnSimplify (fun v => simplifyAux fuel v (d+1)) ps vo r
      | .tbl es seq tr fl ty => tblSimplify (fun v => simplifyAux fuel v (d+1)) es seq tr fl ty
      | .or a b => unionSimplify (fun v => simplifyAux fuel v (d+1)) a b
      | .jsnull => .error "TypeError: Cannot convert undefined or null to object"

/-- `simplify(type)` with the depth defaulted to 1. -/
def simplify (type : LuaType) : Except String LuaType := simplifyAux 7 type 1

/-- Protocol positions (0-based line/character), from
vscode-languageserver-textdocument. -/
structure LuaPos where
  line : Nat
  character : Nat
deriving DecidableEq

/-- Protocol ranges; the source field `end` is a Lean keyword and is called
`stop` here. -/
structure LuaRange where
  start : LuaPos
  stop : LuaPos
deriving DecidableEq

/-- A published diagnostic `{message, range, severity?}` (LSP severity codes:
1 error, 2 warning, 3 information, 4 hint; the parse-failure diagnostic sets
none). -/
structure Diag where
  message : String
  range : LuaRange
  severity : Option Nat
deriving DecidableEq

/-- `LuaDoc {type?, text}` from typing.ts. -/
structure LuaDoc where
  type : Option LuaType
  text : String

/-- `LuaVariable` from typing.ts: parallel most-recent-first histories of
types, identifier ranges and scopes.  The `scopes` entries reference scope
objects; references into the JavaScript heap are modelled as indices into
the walker's scope arena. -/
structure LuaVariable where
  types : List LuaType
  ranges : List LuaRange
  scopes : List Nat
  doc : Option LuaDoc

/-- One `LuaScope` object `{labels, variables, tag}`.  The variable and label
tables created by `Object.create(parent.table)` hold only own properties and
delegate lookups through the `parent` arena index (explore.ts `scopeFork`).
-/
structure ScopeObj where
  parent : Option Nat
  vars : List (String × LuaVariable)
  labels : List (String × LuaRange)
  tag : String

/-- An identifier-LUT value (explore.ts `LUTVariables`). -/
structure VarInfo where
  range : LuaRange
  name : String
  type : LuaType
  doc : Option LuaDoc
  scope : Nat

/-- A function- or table-LUT value (explore.ts `LUTFunctions`/`LUTTables`;
`type` is a `LuaFunction` resp. `LuaTable` in the source). -/
structure LutEntry where
  range : LuaRange
  type : LuaType
  doc : Option LuaDoc
  scope : Nat

/-- A finished `DocumentSymbol` (name, kind, range, selection range, detail,
children). -/
inductive DocSymbol where
  | node : String → Nat → LuaRange → LuaRange → Option String → List DocSymbol → DocSymbol

/-- An open symbol on the walker's symbol stack (children collected so
far). -/
structure SymFrame where
  name : String
  kind : Nat
  range : LuaRange
  selRange : LuaRange
  children : List DocSymbol

/-- The mutable state of `SelfExplore` (explore.ts).  `frames` is an
append-only arena of scope objects modelling the JavaScript heap; scope
references (`currentScope`, `globalScope`, the `scopes` histories, LUT
entries) are arena indices.  The traversal-only `contextStack` is not
recorded: none of the claims' operations touch it. -/
structure WalkerState where
  frames : List ScopeObj
  currentScope : Nat
  globalScope : Nat
  diagnostics : List Diag
  lutVariables : List (String × VarInfo)
  lutScopes : List (LuaRange × Nat)
  lutFunctions : List (String × LutEntry)
  lutTables : List (String × LutEntry)
  docLineMap : List (Nat × LuaDoc)
  symbols : List DocSymbol
  symStack : List SymFrame

/-- The position key `` `:${line}:${character}` `` of the LUTs. -/
def posKey (line character : Nat) : String :=
  ":" ++ toString line ++ ":" ++ toString character

/-- `docMatching(range)`: the processed doc comment ending on the line
directly above the range.  On line 0 the source reads index `-1`, which is
never populated. -/
def docMatching (s : WalkerState) (range : LuaRange) : Option LuaDoc :=
  if range.start.line == 0 then none
  else (s.docLineMap.find? (fun p => p.1 == range.start.line - 1)).map (fun p => p.2)

/-- `scopeFork(range, tag)`: allocate a child scope delegating to the current
one (`Object.create`), install it as current, record it in the scope LUT,
and hand back the previous scope for `scopeRestore`. -/
def scopeFork (s : WalkerState) (range : LuaRange) (tag : String) : WalkerState × Nat :=
  let child : ScopeObj := {parent := some s.currentScope, vars := [], labels := [], tag := tag}
  let idx := s.frames.length
  ({s with frames := s.frames ++ [child],
           currentScope := idx,
           lutScopes := s.lutScopes ++ [(range, idx)]}, s.currentScope)

/-- `scopeRestore(previousScope)`. -/
def scopeRestore (s : WalkerState) (previous : Nat) : WalkerState :=
  {s with currentScope := previous}

/-- The prototype-chain read `scope.variables[name]` starting at arena slot
`i`: own properties first, then the parent chain.  `fuel` bounds the walk;
call sites seed it with the arena size, which suffices whenever parent links
point to earlier slots. -/
def lookupChain (frames : List ScopeObj) : Nat → Nat → String → Option (Nat × LuaVariable)
  | 0, _, _ => none
  | fuel + 1, i, name =>
    match frames.get? i with
    | none => none
    | some f =>
      match f.vars.find? (fun p => p.1 == name) with
      | some p => some (i, p.2)
      | none =>
        match f.parent with
        | some j => lookupChain frames fuel j name
        | none => none

/-- `variableLookup(name)`: the chain read from the current scope. -/
def variableLookup (s : WalkerState) (name : String) : Option LuaVariable :=
  (lookupChain s.frames s.frames.length s.currentScope name).map (fun p => p.2)

/-- `variableDeclare(name, range, type, scope?)` from explore.ts: unless
`name` is already an *own* property of the target scope (default: current),
write a fresh one-entry history there.  On a collision nothing at all
happens - the `throw` in the source is commented out and no diagnostic is
pushed. -/
def variableDeclare (s : WalkerState) (name : String) (range : LuaRange)
    (type : LuaType) (scope : Option Nat) : WalkerState :=
  let target := scope.getD s.currentScope
  match s.frames.get? target with
  | none => s
  | some f =>
    if (f.vars.find? (fun p => p.1 == name)).isSome then s
    else
      let v : LuaVariable := {types := [type], ranges := [range], scopes := [target], doc := none}
      {s with frames := s.frames.set target {f with vars := f.vars ++ [(name, v)]}}

/-- `variableUpdate(name, range, type, scope?)`: the variable is looked up
from the *current* scope chain; when found, the new type/range and the given
scope (default current) are unshifted onto its histories - mutating the
variable object where it lives. -/
def variableUpdate (s : WalkerState) (name : String) (range : LuaRange)
    (type : LuaType) (scope : Option Nat) : WalkerState :=
  match lookupChain s.frames s.frames.length s.currentScope name with
  | none => s
  | some ov =>
    let v' : LuaVariable := {ov.2 with
      types := type :: ov.2.types,
      ranges := range :: ov.2.ranges,
      scopes := (scope.getD s.currentScope) :: ov.2.scopes}
    match s.frames.get? ov.1 with
    | none => s
    | some f =>
      let f' := {f with vars := f.vars.map (fun p => if p.1 == name then (p.1, v') else p)}
      {s with frames := s.frames.set ov.1 f'}

/-- `variableReference(name, range)`: nothing happens when the most recent
history entry carries the same start position (it was just produced by a
declare/update); otherwise the latest type and scope are duplicated under
the new range.  (`variable.types[0]` on an empty history would be
`undefined` in the source; histories built by these operations are never
empty, and the placeholder is `jsnull`.) -/
def variableReference (s : WalkerState) (name : String) (range : LuaRange) : WalkerState :=
  match lookupChain s.frames s.frames.length s.currentScope name with
  | none => s
  | some ov =>
    match ov.2.ranges.head? with
    | none => s
    | some r0 =>
      if r0.start.line == range.start.line && r0.start.character == range.start.character then s
      else
        let v' : LuaVariable := {ov.2 with
          types := ov.2.types.headD .jsnull :: ov.2.types,
          ranges := range :: ov.2.ranges,
          scopes := ov.2.scopes.headD 0 :: ov.2.scopes}
        match s.frames.get? ov.1 with
        | none => s
        | some f =>
          let f' := {f with vars := f.vars.map (fun p => if p.1 == name then (p.1, v') else p)}
          {s with frames := s.frames.set ov.1 f'}

/-- `variableLocate(name, range, shouldNotDoc?)`: record the identifier LUT
entry at the range's start position, resolving the latest type and owning
scope through the current chain and attaching the variable's doc or, failing
that, a doc comment matched by position. -/
def variableLocate (s : WalkerState) (name : String) (range : LuaRange)
    (shouldNotDoc : Bool) : WalkerState :=
  let vOpt := variableLookup s name
  let doc := match vOpt.bind (fun v => v.doc) with
    | some dd => some dd
    | none => if shouldNotDoc then none else docMatching s range
  let entry : VarInfo := {
    range := range, name := name,
    type := match vOpt with
      | some v => v.types.headD .jsnull   -- `variable.types[0]`
      | none => .str "nil",
    doc := doc,
    scope := (vOpt.bind (fun v => v.scopes.head?)).getD s.currentScope}
  let lut' := alistInsert s.lutVariables (posKey range.start.line range.start.character) entry
  {s with lutVariables := lut'}

/-- `functionLocate(type, range)`: the function LUT is keyed one character
past the construct's end position. -/
def functionLocate (s : WalkerState) (type : LuaType) (range : LuaRange) : WalkerState :=
  let doc := docMatching s range
  let entry : LutEntry := {range := range, type := type, doc := doc, scope := s.currentScope}
  let lut' := alistInsert s.lutFunctions (posKey range.stop.line (range.stop.character + 1)) entry
  {s with lutFunctions := lut'}

/-- `tableLocate(type, range)`: the table LUT is keyed one character past
the construct's end position. -/
def tableLocate (s : WalkerState) (type : LuaType) (range : LuaRange) : WalkerState :=
  let doc := docMatching s range
  let entry : LutEntry := {range := range, type := type, doc := doc, scope := s.currentScope}
  let lut' := alistInsert s.lutTables (posKey range.stop.line (range.stop.character + 1)) entry
  {s with lutTables := lut'}

/-- `symbolEnter(name, kind, range, selectionRange)`: open a nested document
symbol. -/
def symbolEnter (s : WalkerState) (name : String) (kind : Nat)
    (range selRange : LuaRange) : WalkerState :=
  let f : SymFrame :=
    {name := name, kind := kind, range := range, selRange := selRange, children := []}
  {s with symStack := f :: s.symStack}

/-- `symbolExit(detail?)`: close the innermost open symbol, attaching it to
its parent's children (or to the root list).  The source links children on
enter through parent pointers; for the well-nested enter/exit pairs the walk
performs, attaching on exit builds the same tree. -/
def symbolExit (s : WalkerState) (detail : Option String) : WalkerState :=
  match s.symStack with
  | [] => s
  | f :: rest =>
    let fin := DocSymbol.node f.name f.kind f.range f.selRange detail f.children
    match rest with
    | [] => {s with symbols := s.symbols ++ [fin], symStack := []}
    | g :: rest' => {s with symStack := ({g with children := g.children ++ [fin]}) :: rest'}

/-- The `Identifier` handler of explore.ts: when the node carries no
`augType` yet, resolve one (`variableLookup(name)?.types[0]`) and record a
reference; in every case record the identifier LUT entry.  Returns the
node's (possibly updated) `augType`. -/
def identifierHandler (s : WalkerState) (name : String) (range : LuaRange)
    (augType : Option LuaType) (shouldNotDoc : Bool) : WalkerState × Option LuaType :=
  if augType.isNone then
    let aug' := (variableLookup s name).bind (fun v => v.types.head?)
    let s1 := variableReference s name range
    (variableLocate s1 name range shouldNotDoc, aug')
  else (variableLocate s name range shouldNotDoc, augType)

/-- One level of `flattenType`'s do-while (util.ts): member arrays contribute
their `l`-th element (falsy elements and holes read as `'nil'`), other
members only contribute at level 0; consecutive `'nil'`s collapse through
`hasNil`. -/
def flattenLevel (flat : List LuaType) (l : Nat) : List LuaType :=
  (flat.foldl (fun (acc : List LuaType × Bool) it =>
    let t : LuaType := match it with
      | .arr ts =>
        match ts.get? l with
        | some x => if truthy x then x else .str "nil"
        | none => .str "nil"
      | x => if l == 0 && truthy x then x else .str "nil"
    match t with
    | .str s =>
      if s == "nil" then (if acc.2 then acc.1 else acc.1 ++ [t], true)
      else (acc.1 ++ [t], acc.2)
    | _ => (acc.1 ++ [t], acc.2)) ([], false)).1

/-- The longest member array of a flattened union (a bound on the level
count of `flattenType`'s do-while). -/
def maxArrLen (flat : List LuaType) : Nat :=
  flat.foldl (fun m it => match it with
    | .arr ts => max m ts.length
    | _ => m) 0

/-- The do-while of `flattenType`: levels are built until one is the single
`'nil'` (break before pushing) or the entry just pushed is falsy (the
`while (r[l++])` test).  `buildBinaryTree(level) ?? 'nil'` maps a nullish
result to `'nil'`. -/
def flattenLevels (flat : List LuaType) : Nat → Nat → List LuaType
  | 0, _ => []
  | fuel + 1, l =>
    let level := flattenLevel flat l
    if (match level with
        | [LuaType.str s] => s == "nil"
        | _ => false) then []
    else
      let e := match buildBinaryTree level with
        | some LuaType.jsnull => LuaType.str "nil"
        | some v => v
        | none => LuaType.str "nil"
      if truthy e then e :: flattenLevels flat fuel (l + 1) else [e]

/-- `flattenType(type)` from util.ts: a (truthy) union is expanded level by
level (`a | [b, c]` becomes `[a|b, nil|c]`), anything else is the singleton
`[type ?? 'nil']`. -/
def flattenType (type : Option LuaType) : List LuaType :=
  match type with
  | some (.or a b) =>
    let flat := flattenOr (.or a b)
    flattenLevels flat (maxArrLen flat + 2) 0
  | some LuaType.jsnull => [.str "nil"]
  | some t => [t]
  | none => [.str "nil"]

/-- `resolveListOfTypes(types)` from util.ts: every entry but the last
contributes one value (the head of its flattening, or of its first element's
flattening when the entry is an array); the last entry is spread whole when
it is an array and flattened otherwise.  Holes (`undefined`) stay `none`;
the consumers read them as `'nil'`. -/
def resolveListOfTypes (types : List (Option LuaType)) : List (Option LuaType) :=
  (types.dropLast.map (fun it =>
    match it with
    | some (.arr ts) => (flattenType ts.head?).head?
    | other => (flattenType other).head?)) ++
  (match types.getLast? with
    | some (some (.arr ts)) => ts.map some
    | some last => (flattenType last).map some
    | none => [])

/-- An assignment target that is a bare `Identifier`.  (Member/index targets
dispatch to the expression handlers; the claims on implicit globals concern
bare names only.) -/
structure IdentTarget where
  name : String
  range : LuaRange

/-- First pass of the `AssignmentStatement` handler over its targets: a name
not visible from the current scope chain is declared in the *global* scope
with type `'nil'`, wrapped in a document symbol and run through the
`Identifier` handler (which sets the node's `augType`).  Returns the
per-target `augType`s for the second pass. -/
def assignPassOne (s : WalkerState) (targets : List IdentTarget) :
    WalkerState × List (Option LuaType) :=
  targets.foldl (fun (acc : WalkerState × List (Option LuaType)) t =>
    if (variableLookup acc.1 t.name).isNone then
      let s1 := symbolEnter acc.1 t.name 19 t.range t.range   -- SymbolKind.Object
      let s2 := variableDeclare s1 t.name t.range (.str "nil") (some s1.globalScope)
      let h := identifierHandler s2 t.name t.range none false
      (symbolExit h.1 none, acc.2 ++ [h.2])
    else (acc.1, acc.2 ++ [none])) (s, [])

/-- Second pass of the `AssignmentStatement` handler: with the resolved
right-hand types (`types[k] ?? 'nil'`), a visible identifier target is
updated in its owning scope (`variable.scopes[0]`), an invisible one is
declared in the global scope; the `Identifier` handler then refreshes the
LUT entry. -/
def assignPassTwo (s : WalkerState) (targets : List IdentTarget)
    (augs : List (Option LuaType)) (types : List (Option LuaType)) : WalkerState :=
  (targets.enum.foldl (fun st (kt : Nat × IdentTarget) =>
    let t := kt.2
    let type := ((types.get? kt.1).bind id).getD (.str "nil")
    match lookupChain st.frames st.frames.length st.currentScope t.name with
    | some ov =>
      let s1 := variableUpdate st t.name t.range type ov.2.scopes.head?
      (identifierHandler s1 t.name t.range ((augs.get? kt.1).bind id) false).1
    | none =>
      let s1 := symbolEnter st t.name 19 t.range t.range
      let s2 := variableDeclare s1 t.name t.range type (some s1.globalScope)
      let s3 := (identifierHandler s2 t.name t.range ((augs.get? kt.1).bind id) false).1
      symbolExit s3 none) s)

/-- The `AssignmentStatement` handler of explore.ts restricted to bare
identifier targets.  Walking the right-hand expressions is the expression
handlers' business; their `augType`s enter as `initTypes` (an expression
with no inferred type contributes `'nil'` via `augType ?? 'nil'`). -/
def assignmentStatementIdents (s : WalkerState) (targets : List IdentTarget)
    (initTypes : List (Option LuaType)) : WalkerState :=
  let p1 := assignPassOne s targets
  let types := resolveListOfTypes (initTypes.map (fun o => some (o.getD (.str "nil"))))
  assignPassTwo p1.1 targets p1.2 types

/-- `isLuaTable(type)` from typing.ts: the `.entries` field is tested for
truthiness, and a table object always carries one. -/
def isLuaTableT : LuaType → Bool
  | .tbl _ _ _ _ _ => true
  | _ => false

/-- `isLuaFunction(type)` from typing.ts: the `.return` field is tested for
truthiness, so a function whose return is the empty-string atom fails the
test. -/
def isLuaFunctionT : LuaType → Bool
  | .fn _ _ r => truthy r
  | _ => false

/-- The state of a `Document` (documents.ts): the inherited `SelfExplore`
walker state plus the four LUT backups that `backup()`/`restore()` shuffle
around a parse failure. -/
structure DocumentState where
  walk : WalkerState
  backupVariables : Option (List (String × VarInfo))
  backupScopes : Option (List (LuaRange × Nat))
  backupFunctions : Option (List (String × LutEntry))
  backupTables : Option (List (String × LutEntry))

/-- `backup()`: keep references to the four current LUTs (`super.reset()`
replaces the table objects, so plain references suffice). -/
def docBackup (s : DocumentState) : DocumentState :=
  {s with backupVariables := some s.walk.lutVariables,
          backupScopes := some s.walk.lutScopes,
          backupFunctions := some s.walk.lutFunctions,
          backupTables := some s.walk.lutTables}

/-- `reset()` from explore.ts: fresh empty walk state.  The arena models the
JavaScript heap, so the old scope objects (still referenced from the
backed-up LUTs) survive and a fresh global scope object is allocated at the
end; `currentScope` is `undefined!` in the source until the `Chunk` handler
runs and is pointed at the fresh global here.  (The `ast` and the traversal
`contextStack`, also cleared by `reset`, are not part of the model: no query
reads them.) -/
def docReset (s : DocumentState) : DocumentState :=
  let g : ScopeObj := {parent := none, vars := [], labels := [], tag := "global"}
  let idx := s.walk.frames.length
  {s with walk := {
    frames := s.walk.frames ++ [g],
    currentScope := idx,
    globalScope := idx,
    diagnostics := [],
    lutVariables := [], lutScopes := [], lutFunctions := [], lutTables := [],
    docLineMap := [], symbols := [], symStack := []}}

/-- `restore()`: put the backed-up LUT references back (the source asserts
them non-null with `!`; a document that was never parsed has none and keeps
the current tables here). -/
def docRestore (s : DocumentState) : DocumentState :=
  {s with walk := {s.walk with
    lutVariables := s.backupVariables.getD s.walk.lutVariables,
    lutScopes := s.backupScopes.getD s.walk.lutScopes,
    lutFunctions := s.backupFunctions.getD s.walk.lutFunctions,
    lutTables := s.backupTables.getD s.walk.lutTables}}

/-- The structured error a parser failure exposes (`{name, message, line,
column}`, 1-based line). -/
structure ParseErr where
  name : String
  message : String
  line : Nat
  column : Nat

/-- The diagnostic the failure path of `handleOnDidChangeContent` pushes: the
parser's 1-based line converted to the protocol's 0-based lines, an empty
range at that point, and no severity. -/
def syntaxDiagnostic (e : ParseErr) : Diag :=
  {message := e.name ++ ": " ++ e.message,
   range := {start := {line := e.line - 1, character := e.column},
             stop := {line := e.line - 1, character := e.column}},
   severity := none}

/-- The analysis phase of `handleOnDidChangeContent` when the parser throws:
`backup(); reset();` then `parseLua` raises before `defines()`/`explore()`
run, so the catch block does `restore()` and pushes the single syntax
diagnostic.  The handler returns `[...includesDiagnostics,
...this.diagnostics]`. -/
def processChangeParseFailure (s : DocumentState) (e : ParseErr)
    (includesDiagnostics : List Diag) : DocumentState × List Diag :=
  let s1 := docRestore (docReset (docBackup s))
  let s2 := {s1 with walk := {s1.walk with
    diagnostics := s1.walk.diagnostics ++ [syntaxDiagnostic e]}}
  (s2, includesDiagnostics ++ s2.walk.diagnostics)

/-- `findVariable(position)`: exact-start-position lookup in the identifier
LUT. -/
def findVariable (s : DocumentState) (p : LuaPos) : Option VarInfo :=
  (s.walk.lutVariables.find? (fun q => q.1 == posKey p.line p.character)).map (fun q => q.2)

/-- `rangeContains(range, position)` from util.ts. -/
def rangeContains (range : LuaRange) (p : LuaPos) : Bool :=
  (range.start.line < p.line && p.line < range.stop.line) ||
  (range.start.line == p.line && range.start.character ≤ p.character) ||
  (range.stop.line == p.line && p.character ≤ range.stop.character)

/-- `findScope(position)`: the scope LUT is scanned from last-inserted to
first-inserted (parents precede children, so the last hit is the smallest
enclosing scope), falling back to the first entry (`undefined` when the LUT
is empty). -/
def findScope (s : DocumentState) (p : LuaPos) : Option (LuaRange × Nat) :=
  match s.walk.lutScopes.reverse.find? (fun e => rangeContains e.1 p) with
  | some e => some e
  | none => s.walk.lutScopes.head?

/-- `findFunction(position)`: the function LUT is read at `character - 1`
(stored keys are end+1, so a hit needs the query two characters past the
construct's end).  Keys are stored with character at least 1, so the clamped
`0 - 1 = 0` of this embedding misses exactly like the source's `-1`. -/
def findFunction (s : DocumentState) (p : LuaPos) : Option LutEntry :=
  (s.walk.lutFunctions.find? (fun q => q.1 == posKey p.line (p.character - 1))).map
    (fun q => q.2)

/-- `findTable(position)`: the table LUT is read at the query position
itself. -/
def findTable (s : DocumentState) (p : LuaPos) : Option LutEntry :=
  (s.walk.lutTables.find? (fun q => q.1 == posKey p.line p.character)).map (fun q => q.2)

/-- `representVariableHover(tag, name, type, doc?)` from util.ts (the
markdown hover block). -/
def representVariableHover (tag name : String) (type : LuaType)
    (doc : Option LuaDoc) : Except String String := do
  let repr ← represent type
  pure (String.intercalate "\n"
    (["```typescript", "(" ++ tag ++ ") " ++ name ++ ": " ++ repr, "```"] ++
     (match doc with
      | none => []
      | some dd => [" ", "---", dd.text])))

/-- `handleOnHover(range)` from documents.ts: resolve the identifier LUT
entry at the range's start and render the hover (its `scope.tag` read
follows the arena reference). -/
def handleOnHover (s : DocumentState) (range : LuaRange) : Except String (Option String) :=
  match findVariable s range.start with
  | none => pure none
  | some found =>
    let tag := ((s.walk.frames.get? found.scope).map (fun f => f.tag)).getD ""
    (representVariableHover tag found.name found.type found.doc).map some

/-- A completion item (label, kind, detail, and the uri/position pay-load
attached for the lazy resolve step). -/
structure CompletionItem where
  label : String
  kind : Option Nat
  detail : Option String
  data : Option (String × LuaPos)
deriving DecidableEq

/-- The `while` loop of `handleOnCompletion`'s identifier path: `k` starts
at 0 and `k++` runs every iteration; once the flag `f` turns on (a history
entry at or before the cursor), the first `LuaTable` type among the
remaining entries is returned. -/
def completionScanK (ranges : List LuaRange) (types : List LuaType) (pos : LuaPos) :
    Nat → Nat → Bool → Option LuaType
  | 0, _, _ => none
  | fuel + 1, k, f =>
    if k < ranges.length then
      if !f then
        let f' := match ranges.get? k with
          | some r => r.start.line ≤ pos.line && r.start.character ≤ pos.character
          | none => false
        completionScanK ranges types pos fuel (k+1) f'
      else
        match types.get? k with
        | some t =>
          if isLuaTableT t then some t
          else completionScanK ranges types pos fuel (k+1) f
        | none => completionScanK ranges types pos fuel (k+1) f
    else none

/-- The `for (const label in found.scope.variables)` enumeration: own
properties in insertion order, then the prototype chain's entries that are
not shadowed. -/
def chainEntries (frames : List ScopeObj) : Nat → Nat → List (String × LuaVariable)
  | 0, _ => []
  | fuel + 1, i =>
    match frames.get? i with
    | none => []
    | some f =>
      let inherited := match f.parent with
        | some j => chainEntries frames fuel j
        | none => []
      f.vars ++ inherited.filter (fun q => (f.vars.find? (fun p => p.1 == q.1)).isNone)

/-- `handleOnCompletion(position, identifier, context)` from documents.ts.
`triggerCharacter` is whether `context.triggerKind` is `TriggerCharacter`.
On the trigger path a non-empty identifier is resolved through the smallest
enclosing scope and its history scanned for a table type past the cursor;
an empty identifier falls back to the table LUT.  The entries of the table
found become `Field` items (kind 5) with rendered detail.  Off the trigger
path, every name visible from the smallest enclosing scope becomes an item
carrying the uri and the most recent range for the resolve step
(`it.ranges[0].start`; histories are never empty). -/
def handleOnCompletion (s : DocumentState) (pos : LuaPos) (identifier : String)
    (triggerCharacter : Bool) (uri : String) :
    Except String (Option (List CompletionItem)) :=
  if triggerCharacter then
    (match (if identifier != "" then
        match findScope s pos with
        | none => none
        | some sc =>
          match lookupChain s.walk.frames s.walk.frames.length sc.2 identifier with
          | none => none
          | some ov =>
            completionScanK ov.2.ranges ov.2.types pos (ov.2.ranges.length + 1) 0 false
      else
        (findTable s pos).map (fun e => e.type)) with
    | none => pure none
    | some found =>
      match found with
      | .tbl es _ _ _ _ =>
        (exceptMapM (fun (kv : String × LuaType) =>
          (represent kv.2).map (fun det =>
            ({label := kv.1, kind := some 5, detail := some det, data := none}
              : CompletionItem))) es).map some
      | _ => .error "TypeError: Cannot convert undefined or null to object")
  else
    match findScope s pos with
    | none => pure none
    | some sc =>
      pure (some ((chainEntries s.walk.frames s.walk.frames.length sc.2).map
        (fun kv =>
          ({label := kv.1, kind := none, detail := none,
            data := some (uri, (kv.2.ranges.headD
              {start := {line := 0, character := 0},
               stop := {line := 0, character := 0}}).start)} : CompletionItem))))

/-- The identifier-path `while` loop of `handleOnSignatureHelp`
(documents.ts lines 319-332).  Unlike its completion sibling, `k` is
declared `const k = 0` and the body never increments it, so only
`ranges[0]`/`types[0]` are ever examined.  One fuel unit is one iteration;
`none` means the loop is still running after that many iterations, `some r`
that it exited with `found = r`. -/
def signatureHelpScan (ranges : List LuaRange) (types : List LuaType) (pos : LuaPos) :
    Nat → Bool → Option (Option LuaType)
  | 0, _ => none
  | fuel + 1, f =>
    if 0 < ranges.length then
      if !f then
        let f' := match ranges.get? 0 with
          | some r => r.start.line ≤ pos.line && r.start.character ≤ pos.character
          | none => false
        signatureHelpScan ranges types pos fuel f'
      else
        match types.get? 0 with
        | some t =>
          if isLuaFunctionT t then some (some t)
          else signatureHelpScan ranges types pos fuel f
        | none => signatureHelpScan ranges types pos fuel f
    else some none

/-- Helper for `framesWF`: the list tail starts at arena slot `i`. -/
def framesWFAux : List ScopeObj → Nat → Bool
  | [], _ => true
  | f :: rest, i =>
    (match f.parent with
      | some j => decide (j < i)
      | none => true) && framesWFAux rest (i + 1)

/-- Arena well-formedness: every prototype link points to an earlier slot
(`Object.create` links a child to an already-allocated object) - so chain
walks seeded with the arena size terminate inside it. -/
def framesWF (frames : List ScopeObj) : Bool := framesWFAux frames 0

/-- Well-formedness of a walker state. -/
def stateWF (s : WalkerState) : Bool :=
  framesWF s.frames && s.currentScope < s.frames.length &&
    s.globalScope < s.frames.length

/-- Well-formedness of the document state read by the queries: sound arena
links and in-arena scope references from the identifier and scope LUTs. -/
def docLutsWF (s : DocumentState) : Bool :=
  framesWF s.walk.frames &&
  s.walk.lutVariables.all (fun p => p.2.scope < s.walk.frames.length) &&
  s.walk.lutScopes.all (fun p => p.2 < s.walk.frames.length)

/-- Following the prototype links from slot `i` down to the chain's root
(the first object with no prototype link). -/
def chainRoot (frames : List ScopeObj) : Nat → Nat → Option Nat
  | 0, _ => none
  | fuel + 1, i =>
    match frames.get? i with
    | none => none
    | some f =>
      match f.parent with
      | some j => chainRoot frames fuel j
      | none => some i

/-- Union-free, null-free type values: no `or` node and no JavaScript `null`
anywhere.  (`simplify`'s union handling drops members, so idempotence is
claimed on this fragment.) -/
inductive LuaPure : LuaType → Prop where
  | str (s : String) : LuaPure (.str s)
  | arr (xs : List LuaType) : (∀ x ∈ xs, LuaPure x) → LuaPure (.arr xs)
  | fn (ps : List (String × LuaType)) (vo : Option LuaType) (r : LuaType) :
      (∀ p ∈ ps, LuaPure p.2) → (∀ v ∈ vo, LuaPure v) → LuaPure r →
      LuaPure (.fn ps vo r)
  | tbl (es : List (String × LuaType)) (seq : List (Nat × LuaType))
      (tr fl : Option LuaType)
      (ty : Option (Option LuaType × Option LuaType × Option LuaType)) :
      (∀ p ∈ es, LuaPure p.2) → (∀ p ∈ seq, LuaPure p.2) →
      (∀ v ∈ tr, LuaPure v) → (∀ v ∈ fl, LuaPure v) →
      (∀ z ∈ ty, ∀ v ∈ z.1, LuaPure v) →
      (∀ z ∈ ty, ∀ v ∈ z.2.1, LuaPure v) →
      (∀ z ∈ ty, ∀ v ∈ z.2.2, LuaPure v) →
      LuaPure (.tbl es seq tr fl ty)

/-- The empty table type (renders as the two braces). -/
def emptyTableT : LuaType := LuaType.tbl [] [] none none none

/-- The union whose first flattened member is a function: `simplify` maps it
to JavaScript `null`. -/
def fnNilUnionT : LuaType := LuaType.or (.fn [] none (.str "nil")) (.str "nil")

/-- The unions `number | string` and `string | number` (equivalent under
member reordering). -/
def unionNS : LuaType := LuaType.or (.str "number") (.str "string")

/-- See `unionNS`. -/
def unionSN : LuaType := LuaType.or (.str "string") (.str "number")

/-- A one-character range at the origin, for the concrete instances. -/
def exRange : LuaRange :=
  {start := {line := 0, character := 0}, stop := {line := 0, character := 1}}

/-- A second range, on another line. -/
def exRange2 : LuaRange :=
  {start := {line := 2, character := 4}, stop := {line := 2, character := 5}}

/-- A concrete variable `x : number` declared at the origin in the global
scope. -/
def exVarX : LuaVariable :=
  {types := [.str "number"], ranges := [exRange], scopes := [0], doc := none}

/-- A global scope object owning `x`. -/
def exGlobal : ScopeObj :=
  {parent := none, vars := [("x", exVarX)], labels := [], tag := "global"}

/-- A child scope object delegating to the global one. -/
def exChild : ScopeObj :=
  {parent := some 0, vars := [], labels := [], tag := "do line 2"}

/-- A walker standing in the global scope of a one-scope arena. -/
def exWalkerTop : WalkerState :=
  {frames := [exGlobal], currentScope := 0, globalScope := 0, diagnostics := [],
   lutVariables := [], lutScopes := [(exRange, 0)], lutFunctions := [],
   lutTables := [], docLineMap := [], symbols := [], symStack := []}

/-- A walker standing in a nested scope; no `y` is visible anywhere. -/
def exWalkerNested : WalkerState :=
  {frames := [exGlobal, exChild], currentScope := 1, globalScope := 0,
   diagnostics := [], lutVariables := [], lutScopes := [(exRange, 0)],
   lutFunctions := [], lutTables := [], docLineMap := [], symbols := [],
   symStack := []}

/-- A concrete identifier-LUT entry for `x`. -/
def exVarInfo : VarInfo :=
  {range := exRange, name := "x", type := .str "number", doc := none, scope := 0}

/-- A document session holding a valid prior snapshot (an identifier LUT
entry for `x` at the origin and the global scope in the scope LUT). -/
def exDocument : DocumentState :=
  {walk := {exWalkerTop with lutVariables := [(posKey 0 0, exVarInfo)]},
   backupVariables := none, backupScopes := none,
   backupFunctions := none, backupTables := none}

/-- A concrete parser error. -/
def exParseErr : ParseErr :=
  {name := "SyntaxError", message := "unexpected symbol near 'do'", line := 3, column := 7}

/-- A document session wrapping a walker state with no backups (for stating
query-level facts). -/
def mkDocument (w : WalkerState) : DocumentState :=
  {walk := w, backupVariables := none, backupScopes := none,
   backupFunctions := none, backupTables := none}

/-- A value the simplifier `sf` maps to a union-free fixed point preserving
truthiness (the induction invariant of the amended idempotence claim). -/
def SimpGood (sf : LuaType → Except String LuaType) (x : LuaType) : Prop :=
  ∃ y, sf x = .ok y ∧ LuaPure y ∧ truthy y = truthy x ∧ sf y = .ok y

@[simp] theorem exc_bind_ok {α β : Type} (a : α) (f : α → Except String β) :
    (Except.ok a : Except String α) >>= f = f a := rfl

@[simp] theorem exc_bind_err {α β : Type} (e : String) (f : α → Except String β) :
    (Except.error e : Except String α) >>= f = Except.error e := rfl

@[simp] theorem exc_map_ok {α β : Type} (a : α) (f : α → β) :
    (Except.ok a : Except String α).map f = Except.ok (f a) := rfl

@[simp] theorem exc_map_err {α β : Type} (e : String) (f : α → β) :
    (Except.error e : Except String α).map f = Except.error e := rfl

@[simp] theorem exc_pure {α : Type} (a : α) :
    (pure a : Except String α) = Except.ok a := rfl

/-- C1 - parse is not a left inverse of represent: the empty table type is
produced by the render grammar (every section omitted), `represent` yields
the two-brace string, and `parse` throws a `TypeError` on it instead of
succeeding.  (The parser splits the empty interior into one empty field and
tries to parse `""` as a type.) -/
theorem claim_C1 :
    represent emptyTableT = Except.ok "\x7b\x7d" ∧
    (parseType "\x7b\x7d").isOk = false :=
  ⟨rfl, rfl⟩

/-- C3 - the union-simplification loop of `simplify` breaks after its first
member, so `simplify(parse("number | number | string"))` renders as
`"number"`: the duplicate is gone but so is the distinct member `string`,
contradicting the claimed `"number | string"` (and `simplify`'s own doc
comment, `'a | b | a'` becomes `'a | b'`). -/
theorem claim_C3 :
    ((parseType "number | number | string").bind simplify).bind represent =
      Except.ok "number" := rfl

/-- C4 counterexample - `number | string` and `string | number` are
equivalent under the normal entry depth, but when the recursion guard is hit
(depth 6 exceeds `MAX_DEPTH = 5`) the guarded subcomparison yields `false`,
not `true` as claimed. -/
theorem claim_C4_counterexample :
    equivalentAux 7 unionNS unionSN 6 = false ∧
    equivalentAux 7 unionNS unionSN 1 = true :=
  ⟨rfl, rfl⟩

/-- C4 (amended) - whenever the recursion guard of `equivalent` is hit
(depth beyond `MAX_DEPTH = 5`), the guarded subcomparison yields `false` for
any two operands that are not the identical atom or `null` (those return
`true` earlier through the `===` shortcut): deep or circular structures
compare as *inequivalent* once the guard is reached. -/
theorem claim_C4 (fuel : Nat) (a b : LuaType) (d : Nat)
    (hd : 5 < d) (hne : atomLikeEq a b = false) :
    equivalentAux fuel a b d = false := by
  cases fuel with
  | zero => rfl
  | succ fuel =>
    cases a <;> cases b <;>
      simp_all [equivalentAux, atomLikeEq, isAtomStr]

/-- C4 witness - the amended statement at the concrete pair of reordered
unions, depth 6. -/
theorem claim_C4_witness :
    (5 < 6 ∧ atomLikeEq unionNS unionSN = false) ∧
    equivalentAux 7 unionNS unionSN 6 = false :=
  ⟨⟨by decide, by decide⟩, claim_C4 7 unionNS unionSN 6 (by decide) (by decide)⟩

/-- C9 counterexample - `simplify` is defined on the union
`(() -> nil) | nil` and returns JavaScript `null` (the function member is
dropped by the loop, leaving `buildBinaryTree` with an empty list), but
`simplify(simplify(T))` then throws a `TypeError` instead of returning that
same value: idempotence fails. -/
theorem claim_C9_counterexample :
    ¬ ((simplify fnNilUnionT).bind simplify = simplify fnNilUnionT) := by
  intro h
  have h1 : (simplify fnNilUnionT).bind simplify =
      Except.error "TypeError: Cannot convert undefined or null to object" := rfl
  have h2 : simplify fnNilUnionT = Except.ok LuaType.jsnull := rfl
  rw [h1, h2] at h
  exact Except.noConfusion h

/-- C7 counterexample - declaring `x` over an existing own binding of the
target scope does *not* log a diagnostic: the diagnostics list stays empty
(the claim's "fails by logging a diagnostic" is wrong; the `throw` in the
source is commented out and nothing is recorded). -/
theorem claim_C7_counterexample :
    (((exWalkerTop.frames.get? 0).bind
        (fun f => f.vars.find? (fun p => p.1 == "x"))).isSome = true) ∧
    ¬ ((variableDeclare exWalkerTop "x" exRange2 (.str "boolean") (some 0)).diagnostics.length
        = exWalkerTop.diagnostics.length + 1) := by
  constructor
  · decide
  · decide

/-- C7 (amended) - invoking `variableDeclare` on a name that already exists
as an own property of the target scope fails *silently*: it does not throw,
logs no diagnostic, and leaves the existing binding - indeed the whole
walker state - unchanged. -/
theorem claim_C7 (s : WalkerState) (name : String) (range : LuaRange)
    (type : LuaType) (scope : Option Nat)
    (h : ((s.frames.get? (scope.getD s.currentScope)).bind
      (fun f => f.vars.find? (fun p => p.1 == name))).isSome = true) :
    variableDeclare s name range type scope = s := by
  unfold variableDeclare
  dsimp only
  split
  next hf => rfl
  next f hf =>
    rw [hf] at h
    have h' : (f.vars.find? (fun p => p.1 == name)).isSome = true := h
    simp [h']

/-- C7 witness - the amended statement at a concrete scope owning `x`. -/
theorem claim_C7_witness :
    (((exWalkerTop.frames.get? ((some 0 : Option Nat).getD exWalkerTop.currentScope)).bind
      (fun f => f.vars.find? (fun p => p.1 == "x"))).isSome = true) ∧
    variableDeclare exWalkerTop "x" exRange2 (.str "boolean") (some 0) = exWalkerTop :=
  ⟨by decide, claim_C7 exWalkerTop "x" exRange2 (.str "boolean") (some 0) (by decide)⟩

/-- C10 - the identifier-path loop of `handleOnSignatureHelp` never
terminates when the variable's history is non-empty and its most recent
type is not a function: `k` is declared `const k = 0` and never incremented
(unlike the completion sibling's `k++`), so no amount of iterations makes
the loop exit - for every fuel the scan is still running. -/
theorem claim_C10 (ranges : List LuaRange) (types : List LuaType) (pos : LuaPos)
    (hr : ranges ≠ [])
    (ht : ∀ t, types.head? = some t → isLuaFunctionT t = false) :
    ∀ fuel f, signatureHelpScan ranges types pos fuel f = none := by
  intro fuel
  induction fuel with
  | zero => intro f; rfl
  | succ fuel ih =>
    intro f
    have h0 : 0 < ranges.length := List.length_pos.mpr hr
    unfold signatureHelpScan
    rw [if_pos h0]
    cases f with
    | false => exact ih _
    | true =>
      cases htys : types.get? 0 with
      | none => exact ih true
      | some t =>
        have hft : isLuaFunctionT t = false := by
          apply ht
          cases types with
          | nil => cases htys
          | cons a l => cases htys; rfl
        simp only [Bool.not_true, Bool.false_eq_true, if_false, hft]
        exact ih true

/-- C10 witness - a concrete run: one recorded range, a `number` history
entry, any cursor; after a thousand iterations the loop has not exited. -/
theorem claim_C10_witness :
    signatureHelpScan [exRange] [.str "number"] {line := 5, character := 0} 1000 false = none :=
  claim_C10 [exRange] [.str "number"] {line := 5, character := 0}
    (by simp) (by intro t ht; cases ht; rfl) 1000 false

theorem find_map_replace {κ β : Type} [BEq κ] (k : κ) (v : β) :
    ∀ (l : List (κ × β)),
    ((l.map (fun p => if p.1 == k then (p.1, v) else p)).find?
      (fun p => p.1 == k)).map Prod.snd =
    ((l.find? (fun p => p.1 == k)).map Prod.snd).map (fun _ => v) := by
  intro l
  induction l with
  | nil => rfl
  | cons p l ih =>
    by_cases hp : (p.1 == k) = true
    · simp [List.find?, hp]
    · have hp' : (p.1 == k) = false := by
        cases hpv : (p.1 == k) with
        | true => exact absurd hpv hp
        | false => rfl
      simpa [List.find?, hp'] using ih

theorem find_append_single {κ β : Type} [BEq κ] [LawfulBEq κ] (k : κ) (v : β) :
    ∀ (l : List (κ × β)), l.find? (fun p => p.1 == k) = none →
    ((l ++ [(k, v)]).find? (fun p => p.1 == k)).map Prod.snd = some v := by
  intro l
  induction l with
  | nil =>
    intro _
    simp [List.find?]
  | cons p l ih =>
    intro h
    cases hpv : (p.1 == k) with
    | true => simp [List.find?, hpv] at h
    | false =>
      simp only [List.find?, hpv] at h
      simp only [List.cons_append, List.find?, hpv]
      exact ih h

theorem alistInsert_find {κ β : Type} [BEq κ] [LawfulBEq κ]
    (l : List (κ × β)) (k : κ) (v : β) :
    ((alistInsert l k v).find? (fun p => p.1 == k)).map Prod.snd = some v := by
  unfold alistInsert
  by_cases hl : (l.find? (fun p => p.1 == k)).isSome = true
  · rw [if_pos hl, find_map_replace]
    cases hfind : l.find? (fun p => p.1 == k) with
    | none => rw [hfind] at hl; cases hl
    | some p => simp [hfind]
  · rw [if_neg hl]
    exact find_append_single k v l (Option.not_isSome_iff_eq_none.mp hl)

/-- C8 counterexample - a function registered with a range ending at
character 1 of line 0 is keyed at `:0:2` in the function LUT, but a query
one character past the end (character 2) reads key `:0:1` and resolves
*nothing*, against the claim. -/
theorem claim_C8_counterexample :
    findFunction (mkDocument (functionLocate exWalkerTop (.fn [] none (.str "nil")) exRange))
      {line := 0, character := 2} = none := rfl

/-- C8 (amended) - the function LUT stores at end+1 while `findFunction`
subtracts one from the query character, so a registered function literal
resolves at *two* characters past its end position; the table LUT stores at
end+1 and `findTable` queries the position unshifted, so a registered table
constructor resolves at one character past its end, as the claim states for
both. -/
theorem claim_C8 (w : WalkerState) (fnT tbT : LuaType) (rng : LuaRange) :
    findFunction (mkDocument (functionLocate w fnT rng))
      {line := rng.stop.line, character := rng.stop.character + 2} =
      some {range := rng, type := fnT, doc := docMatching w rng, scope := w.currentScope} ∧
    findTable (mkDocument (tableLocate w tbT rng))
      {line := rng.stop.line, character := rng.stop.character + 1} =
      some {range := rng, type := tbT, doc := docMatching w rng, scope := w.currentScope} := by
  constructor
  · unfold findFunction mkDocument functionLocate
    dsimp only
    have harith : rng.stop.character + 2 - 1 = rng.stop.character + 1 := by omega
    rw [harith]
    exact alistInsert_find _ _ _
  · unfold findTable mkDocument tableLocate
    dsimp only
    exact alistInsert_find _ _ _

theorem luaPure_not_or {t : LuaType} (h : LuaPure t) : isOrNode t = false := by
  cases h <;> rfl

theorem forall2_mem_right {α β : Type} {R : α → β → Prop} :
    ∀ {l : List α} {l' : List β}, List.Forall₂ R l l' → ∀ y ∈ l', ∃ x ∈ l, R x y := by
  intro l l' h
  induction h with
  | nil => intro y hy; cases hy
  | cons hr _ ih =>
    intro y hy
    cases hy with
    | head => exact ⟨_, List.mem_cons_self _ _, hr⟩
    | tail _ hy' =>
      obtain ⟨x, hx, hxy⟩ := ih y hy'
      exact ⟨x, List.mem_cons_of_mem _ hx, hxy⟩

theorem mapM_ok_of_forall {α β : Type} (f : α → Except String β) :
    ∀ (l : List α), (∀ x ∈ l, ∃ y, f x = .ok y) →
    ∃ l', exceptMapM f l = .ok l' ∧ List.Forall₂ (fun x y => f x = .ok y) l l' := by
  intro l
  induction l with
  | nil => intro _; exact ⟨[], rfl, .nil⟩
  | cons a l ih =>
    intro h
    obtain ⟨y, hy⟩ := h a (List.mem_cons_self a l)
    obtain ⟨l', hl', hfa⟩ := ih (fun x hx => h x (List.mem_cons_of_mem _ hx))
    refine ⟨y :: l', ?_, .cons hy hfa⟩
    unfold exceptMapM
    rw [hy, hl']
    rfl

theorem mapM_ok_id {α : Type} (f : α → Except String α) :
    ∀ (l : List α), (∀ x ∈ l, f x = .ok x) → exceptMapM f l = .ok l := by
  intro l
  induction l with
  | nil => intro _; rfl
  | cons a l ih =>
    intro h
    unfold exceptMapM
    rw [h a (List.mem_cons_self a l), ih (fun x hx => h x (List.mem_cons_of_mem _ hx))]
    rfl

theorem pairMapM_spec {κ : Type} (sf : LuaType → Except String LuaType)
    (l : List (κ × LuaType)) (h : ∀ p ∈ l, ∃ y, sf p.2 = .ok y) :
    ∃ l', pairMapM sf l = .ok l' ∧
      List.Forall₂ (fun (p q : κ × LuaType) => q.1 = p.1 ∧ sf p.2 = .ok q.2) l l' := by
  obtain ⟨l', hmap, hfa⟩ := mapM_ok_of_forall
    (fun (p : κ × LuaType) => (sf p.2).map (fun t' => (p.1, t'))) l
    (fun p hp => by
      obtain ⟨y, hy⟩ := h p hp
      exact ⟨(p.1, y), by simp only [hy]; rfl⟩)
  refine ⟨l', hmap, hfa.imp ?_⟩
  intro p q hpq
  cases hsv : sf p.2 with
  | error e => rw [hsv] at hpq; cases hpq
  | ok v =>
    rw [hsv, exc_map_ok] at hpq
    injection hpq with h
    subst h
    exact ⟨rfl, rfl⟩

theorem pairMapM_id {κ : Type} (sf : LuaType → Except String LuaType)
    (l : List (κ × LuaType)) (h : ∀ p ∈ l, sf p.2 = .ok p.2) :
    pairMapM sf l = .ok l :=
  mapM_ok_id _ l (fun p hp => by rw [h p hp, exc_map_ok, Prod.mk.eta])

/-- The elements produced by a successful `pairMapM` over `SimpGood` values
are fixed points of `sf`, union-free, and truthiness-preserving. -/
theorem pairMapM_good {κ : Type} (sf : LuaType → Except String LuaType)
    (l l' : List (κ × LuaType)) (hG : ∀ p ∈ l, SimpGood sf p.2)
    (hfa : List.Forall₂ (fun (p q : κ × LuaType) => q.1 = p.1 ∧ sf p.2 = .ok q.2) l l') :
    ∀ q ∈ l', LuaPure q.2 ∧ sf q.2 = .ok q.2 := by
  intro q hq
  obtain ⟨p, hp, hk, hv⟩ := forall2_mem_right hfa q hq
  obtain ⟨y, h1, h2, h3, h4⟩ := hG p hp
  rw [h1] at hv
  cases hv
  exact ⟨h2, h4⟩

theorem optAndThen_good (sf : LuaType → Except String LuaType) (o : Option LuaType)
    (hG : ∀ v ∈ o, SimpGood sf v) (hpo : ∀ v ∈ o, LuaPure v) :
    ∃ o', optAndThen sf o = .ok o' ∧ (∀ y ∈ o', LuaPure y) ∧
      truthyO o' = truthyO o ∧ optAndThen sf o' = .ok o' := by
  cases o with
  | none =>
    refine ⟨none, rfl, ?_, rfl, rfl⟩
    intro y hy
    simp at hy
  | some v =>
    cases htv : truthy v with
    | true =>
      obtain ⟨y, h1, h2, h3, h4⟩ := hG v rfl
      refine ⟨some y, ?_, ?_, ?_, ?_⟩
      · simp [optAndThen, htv, h1]
      · intro z hz; cases hz; exact h2
      · simp [truthyO, h3]
      · have hty : truthy y = true := h3.trans htv
        simp [optAndThen, hty, h4]
    | false =>
      refine ⟨some v, ?_, ?_, rfl, ?_⟩
      · simp [optAndThen, htv]
      · intro z hz; cases hz; exact hpo v rfl
      · simp [optAndThen, htv]

theorem seqRemove_sub (seq : List (Nat × LuaType)) (k : Nat) :
    ∀ p ∈ seqRemove seq k, p ∈ seq :=
  fun p hp => (List.mem_filter.mp hp).1

theorem seqLookup_none_of_sub (seq sub : List (Nat × LuaType))
    (hsub : ∀ p ∈ sub, p ∈ seq) (j : Nat) (h : seqLookup seq j = none) :
    seqLookup sub j = none := by
  unfold seqLookup at h ⊢
  cases hf : sub.find? (fun p => p.1 == j) with
  | none => rfl
  | some p =>
    have hpm : p ∈ seq := hsub p (List.mem_of_find?_eq_some hf)
    have hpred := List.find?_some hf
    cases hq : seq.find? (fun p => p.1 == j) with
    | none =>
      have := (List.find?_eq_none.mp hq) p hpm
      simp only [hpred] at this
      exact (this trivial).elim
    | some q => rw [hq] at h; cases h

theorem seqRemove_lookup_self (seq : List (Nat × LuaType)) (k : Nat) :
    seqLookup (seqRemove seq k) k = none := by
  unfold seqLookup seqRemove
  cases hf : (seq.filter (fun p => p.1 != k)).find? (fun p => p.1 == k) with
  | none => rfl
  | some p =>
    have hpm := List.mem_of_find?_eq_some hf
    have hpred := List.find?_some hf
    have hkeep := (List.mem_filter.mp hpm).2
    simp only [bne] at hkeep
    rw [hpred] at hkeep
    cases hkeep

theorem seqLookup_some_mem (seq : List (Nat × LuaType)) (k : Nat) (v : LuaType)
    (h : seqLookup seq k = some v) : ∃ p ∈ seq, p.2 = v := by
  unfold seqLookup at h
  cases hf : seq.find? (fun p => p.1 == k) with
  | none => rw [hf] at h; cases h
  | some p =>
    rw [hf] at h
    cases h
    exact ⟨p, List.mem_of_find?_eq_some hf, rfl⟩

theorem seqRemove_length_lt (seq : List (Nat × LuaType)) (k : Nat)
    (h : (seqLookup seq k).isSome = true) :
    (seqRemove seq k).length < seq.length := by
  unfold seqLookup at h
  cases hf : seq.find? (fun p => p.1 == k) with
  | none => rw [hf] at h; cases h
  | some p =>
    have hpm := List.mem_of_find?_eq_some hf
    have hpred := List.find?_some hf
    exact List.length_filter_lt_length_iff_exists.mpr
      ⟨p, hpm, by simp only [bne, hpred]; simp⟩

theorem foldAway_ok (tn : LuaType) (hor : isOrNode tn = false) :
    ∀ (fuel : Nat) (seq : List (Nat × LuaType)) (k : Nat), seq.length < fuel →
    ∃ s', foldAway fuel seq tn k = .ok s' ∧ (∀ p ∈ s', p ∈ seq) ∧
      (∀ j, seqLookup seq j = none → seqLookup s' j = none) := by
  intro fuel
  induction fuel with
  | zero => intro seq k h; omega
  | succ fuel ih =>
    intro seq k hlen
    cases hl : seqLookup seq k with
    | none =>
      refine ⟨seq, ?_, fun p hp => hp, fun j hj => hj⟩
      unfold foldAway
      rw [hl]
      simp [hor]
    | some v =>
      cases he : equivalent v tn with
      | true =>
        have hrem : (seqRemove seq k).length < fuel := by
          have := seqRemove_length_lt seq k (by rw [hl]; rfl)
          omega
        obtain ⟨s', h1, h2, h3⟩ := ih (seqRemove seq k) (k + 1) hrem
        refine ⟨s', ?_, fun p hp => seqRemove_sub seq k p (h2 p hp),
          fun j hj => h3 j (seqLookup_none_of_sub seq _ (seqRemove_sub seq k) j hj)⟩
        unfold foldAway
        simp only [hl]
        rw [if_pos he]
        exact h1
      | false =>
        refine ⟨seq, ?_, fun p hp => hp, fun j hj => hj⟩
        unfold foldAway
        simp only [hl]
        rw [if_neg (by simp [he])]

/-- The elements produced by a successful `exceptMapM` over `SimpGood`
values are union-free fixed points of `sf`. -/
theorem mapM_good (sf : LuaType → Except String LuaType)
    (l l' : List LuaType) (hG : ∀ x ∈ l, SimpGood sf x)
    (hfa : List.Forall₂ (fun x y => sf x = .ok y) l l') :
    ∀ y ∈ l', LuaPure y ∧ sf y = .ok y := by
  intro y hy
  obtain ⟨x, hx, hxy⟩ := forall2_mem_right hfa y hy
  obtain ⟨z, h1, h2, h3, h4⟩ := hG x hx
  rw [h1] at hxy
  cases hxy
  exact ⟨h2, h4⟩

/-- The sequence-folding step of `simplify`'s table case succeeds on a list
of union-free `sf`-fixed entries, produces entries of the same kind, and is
its own fixed point (re-running it on its output changes nothing). -/
theorem tblSeqStep_good (sf : LuaType → Except String LuaType)
    (sq : List (Nat × LuaType)) (tn0 : Option LuaType)
    (hsqG : ∀ q ∈ sq, LuaPure q.2 ∧ sf q.2 = .ok q.2)
    (htnF : optAndThen sf tn0 = .ok tn0)
    (htnP : ∀ v ∈ tn0, LuaPure v) :
    ∃ st1 st2, tblSeqStep sq tn0 = .ok (st1, st2) ∧
      (∀ q ∈ st1, LuaPure q.2 ∧ sf q.2 = .ok q.2) ∧
      (∀ v ∈ st2, LuaPure v) ∧ optAndThen sf st2 = .ok st2 ∧
      tblSeqStep st1 st2 = .ok (st1, st2) ∧
      (st2 = tn0 ∨ ∃ v1, st2 = some v1 ∧ truthy v1 = true) := by
  cases hl : seqLookup sq 1 with
  | none =>
    refine ⟨sq, tn0, ?_, hsqG, htnP, htnF, ?_, .inl rfl⟩
    · unfold tblSeqStep
      rw [hl]
      rfl
    · unfold tblSeqStep
      rw [hl]
      rfl
  | some v1 =>
    have hv1G : LuaPure v1 ∧ sf v1 = .ok v1 := by
      obtain ⟨p, hp, hpe⟩ := seqLookup_some_mem sq 1 v1 hl
      exact hpe ▸ hsqG p hp
    have hor : isOrNode v1 = false := luaPure_not_or hv1G.1
    cases tn0 with
    | none =>
      cases htv : truthy v1 with
      | false =>
        refine ⟨sq, none, ?_, hsqG, htnP, htnF, ?_, .inl rfl⟩
        · unfold tblSeqStep
          simp only [hl]
          dsimp only [truthyO]
          rw [if_neg (by simp [htv])]
          rfl
        · unfold tblSeqStep
          simp only [hl]
          dsimp only [truthyO]
          rw [if_neg (by simp [htv])]
          rfl
      | true =>
        obtain ⟨s', hFA, hsub, hnone⟩ := foldAway_ok v1 hor
          ((seqRemove sq 1).length + 1) (seqRemove sq 1) 2 (Nat.lt_succ_self _)
        refine ⟨s', some v1, ?_, ?_, ?_, ?_, ?_, .inr ⟨v1, rfl, htv⟩⟩
        · unfold tblSeqStep
          simp only [hl]
          dsimp only [truthyO]
          rw [if_pos (by simp [htv]), hFA]
          rfl
        · intro q hq
          exact hsqG q (seqRemove_sub sq 1 q (hsub q hq))
        · intro v hv
          cases hv
          exact hv1G.1
        · simp [optAndThen, htv, hv1G.2]
        · have hs1 : seqLookup s' 1 = none := hnone 1 (seqRemove_lookup_self sq 1)
          unfold tblSeqStep
          rw [hs1]
          rfl
    | some tv =>
      cases hc : (truthy v1 && (!truthy tv || equivalent v1 tv)) with
      | false =>
        refine ⟨sq, some tv, ?_, hsqG, htnP, htnF, ?_, .inl rfl⟩
        · unfold tblSeqStep
          simp only [hl]
          dsimp only [truthyO]
          rw [if_neg (by simp [hc])]
          rfl
        · unfold tblSeqStep
          simp only [hl]
          dsimp only [truthyO]
          rw [if_neg (by simp [hc])]
          rfl
      | true =>
        have htv : truthy v1 = true := by
          simp only [Bool.and_eq_true] at hc
          exact hc.1
        obtain ⟨s', hFA, hsub, hnone⟩ := foldAway_ok v1 hor
          ((seqRemove sq 1).length + 1) (seqRemove sq 1) 2 (Nat.lt_succ_self _)
        refine ⟨s', some v1, ?_, ?_, ?_, ?_, ?_, .inr ⟨v1, rfl, htv⟩⟩
        · unfold tblSeqStep
          simp only [hl]
          dsimp only [truthyO]
          rw [if_pos hc, hFA]
          rfl
        · intro q hq
          exact hsqG q (seqRemove_sub sq 1 q (hsub q hq))
        · intro v hv
          cases hv
          exact hv1G.1
        · simp [optAndThen, htv, hv1G.2]
        · have hs1 : seqLookup s' 1 = none := hnone 1 (seqRemove_lookup_self sq 1)
          unfold tblSeqStep
          rw [hs1]
          rfl

/-- When neither `type.typed` nor the computed `typedNumber` is truthy, the
typed record of the rebuilt table is absent. -/
theorem tblTypedStep_none (sf : LuaType → Except String LuaType)
    (ty : Option (Option LuaType × Option LuaType × Option LuaType))
    (nb : Option LuaType) (h : (ty.isSome || truthyO nb) = false) :
    tblTypedStep sf ty nb = .ok none := by
  unfold tblTypedStep
  rw [if_neg (by simp [h])]
  rfl

/-- When `type.typed || typedNumber` is truthy, the typed record is rebuilt
from the simplified `string` / `boolean` slots and the new number slot. -/
theorem tblTypedStep_some (sf : LuaType → Except String LuaType)
    (ty : Option (Option LuaType × Option LuaType × Option LuaType))
    (nb sS bS : Option LuaType) (h : (ty.isSome || truthyO nb) = true)
    (hS : optAndThen sf (ty.bind (fun z => z.1)) = .ok sS)
    (hB : optAndThen sf (ty.bind (fun z => z.2.2)) = .ok bS) :
    tblTypedStep sf ty nb = .ok (some (sS, nb, bS)) := by
  unfold tblTypedStep
  rw [if_pos h]
  simp [hS, hB]

/-- The table case of `simplify` on union-free slots, all simplified by a
`SimpGood` recursive simplifier: it succeeds, its output is a union-free
table, and running the table case again on the output's slots reproduces the
output unchanged. -/
theorem tblSimplify_good (sf : LuaType → Except String LuaType)
    (es : List (String × LuaType)) (seq : List (Nat × LuaType))
    (tr fl : Option LuaType)
    (ty : Option (Option LuaType × Option LuaType × Option LuaType))
    (hes : ∀ p ∈ es, SimpGood sf p.2)
    (hseq : ∀ p ∈ seq, SimpGood sf p.2)
    (htr : ∀ v ∈ tr, SimpGood sf v) (htrP : ∀ v ∈ tr, LuaPure v)
    (hfl : ∀ v ∈ fl, SimpGood sf v) (hflP : ∀ v ∈ fl, LuaPure v)
    (htyS : ∀ z ∈ ty, ∀ v ∈ z.1, SimpGood sf v)
    (htySP : ∀ z ∈ ty, ∀ v ∈ z.1, LuaPure v)
    (htyN : ∀ z ∈ ty, ∀ v ∈ z.2.1, SimpGood sf v)
    (htyNP : ∀ z ∈ ty, ∀ v ∈ z.2.1, LuaPure v)
    (htyB : ∀ z ∈ ty, ∀ v ∈ z.2.2, SimpGood sf v)
    (htyBP : ∀ z ∈ ty, ∀ v ∈ z.2.2, LuaPure v) :
    ∃ es' sq' tr' fl' ty',
      tblSimplify sf es seq tr fl ty = .ok (.tbl es' sq' tr' fl' ty') ∧
      LuaPure (.tbl es' sq' tr' fl' ty') ∧
      tblSimplify sf es' sq' tr' fl' ty' = .ok (.tbl es' sq' tr' fl' ty') := by
  obtain ⟨seq1, hseqM, hseqFa⟩ := pairMapM_spec sf seq
    (fun p hp => (hseq p hp).imp (fun y hy => hy.1))
  have hseqG := pairMapM_good sf seq seq1 hseq hseqFa
  have hbindN : ∀ v ∈ ty.bind (fun z => z.2.1), SimpGood sf v := by
    intro v hv
    cases ty with
    | none => cases hv
    | some z => exact htyN z rfl v hv
  have hbindNP : ∀ v ∈ ty.bind (fun z => z.2.1), LuaPure v := by
    intro v hv
    cases ty with
    | none => cases hv
    | some z => exact htyNP z rfl v hv
  obtain ⟨tn0, htn1, htn2, htn3, htn4⟩ :=
    optAndThen_good sf (ty.bind (fun z => z.2.1)) hbindN hbindNP
  obtain ⟨st1, st2, hstEq, hst1G, hst2P, hst2F, hstFix, hst2src⟩ :=
    tblSeqStep_good sf seq1 tn0 hseqG htn4 htn2
  obtain ⟨es1, hesM, hesFa⟩ := pairMapM_spec sf es
    (fun p hp => (hes p hp).imp (fun y hy => hy.1))
  have hesG := pairMapM_good sf es es1 hes hesFa
  obtain ⟨tr1, htrA, htrPP, htrT, htrF⟩ := optAndThen_good sf tr htr htrP
  obtain ⟨fl1, hflA, hflPP, hflT, hflF⟩ := optAndThen_good sf fl hfl hflP
  have hbindS : ∀ v ∈ ty.bind (fun z => z.1), SimpGood sf v := by
    intro v hv
    cases ty with
    | none => cases hv
    | some z => exact htyS z rfl v hv
  have hbindSP : ∀ v ∈ ty.bind (fun z => z.1), LuaPure v := by
    intro v hv
    cases ty with
    | none => cases hv
    | some z => exact htySP z rfl v hv
  have hbindB : ∀ v ∈ ty.bind (fun z => z.2.2), SimpGood sf v := by
    intro v hv
    cases ty with
    | none => cases hv
    | some z => exact htyB z rfl v hv
  have hbindBP : ∀ v ∈ ty.bind (fun z => z.2.2), LuaPure v := by
    intro v hv
    cases ty with
    | none => cases hv
    | some z => exact htyBP z rfl v hv
  obtain ⟨sS, hsS1, hsS2, hsS3, hsS4⟩ :=
    optAndThen_good sf (ty.bind (fun z => z.1)) hbindS hbindSP
  obtain ⟨bS, hbS1, hbS2, hbS3, hbS4⟩ :=
    optAndThen_good sf (ty.bind (fun z => z.2.2)) hbindB hbindBP
  have htn0none : ty = none → tn0 = none := by
    intro h
    subst h
    have h2 : Except.ok (none : Option LuaType) = Except.ok tn0 := htn1
    injection h2 with h3
    exact h3.symm
  cases hcnd : (ty.isSome || truthyO st2) with
  | false =>
    have hst2none : st2 = none := by
      rcases hst2src with h | ⟨v1, hv1, htv1⟩
      · have h1 : ty.isSome = false := by
          cases h0 : ty.isSome
          · rfl
          · rw [h0] at hcnd
            simp at hcnd
        have hty0 : ty = none := by
          cases ty
          · rfl
          · simp at h1
        exact h.trans (htn0none hty0)
      · rw [hv1] at hcnd
        simp [truthyO, htv1] at hcnd
    subst hst2none
    refine ⟨es1, st1, tr1, fl1, none, ?_, ?_, ?_⟩
    · simp only [tblSimplify, hseqM, htn1, hstEq, hesM, htrA, hflA, exc_bind_ok,
        tblTypedStep_none sf ty none hcnd, exc_pure]
    · exact LuaPure.tbl es1 st1 tr1 fl1 none (fun p hp => (hesG p hp).1)
        (fun q hq => (hst1G q hq).1) htrPP hflPP
        (fun z hz => absurd hz (Option.not_mem_none z))
        (fun z hz => absurd hz (Option.not_mem_none z))
        (fun z hz => absurd hz (Option.not_mem_none z))
    · have hq1 : pairMapM sf st1 = .ok st1 := pairMapM_id sf st1 (fun q hq => (hst1G q hq).2)
      have hq2 : pairMapM sf es1 = .ok es1 := pairMapM_id sf es1 (fun q hq => (hesG q hq).2)
      have hnb2 : optAndThen sf ((none : Option (Option LuaType × Option LuaType ×
        Option LuaType)).bind (fun z => z.2.1)) = .ok (none : Option LuaType) := rfl
      have hty2 : tblTypedStep sf none (none : Option LuaType) = .ok none :=
        tblTypedStep_none sf none none rfl
      simp only [tblSimplify, hq1, hnb2, hstFix, hq2, htrF, hflF, exc_bind_ok, hty2, exc_pure]
  | true =>
    refine ⟨es1, st1, tr1, fl1, some (sS, st2, bS), ?_, ?_, ?_⟩
    · simp only [tblSimplify, hseqM, htn1, hstEq, hesM, htrA, hflA, exc_bind_ok,
        tblTypedStep_some sf ty st2 sS bS hcnd hsS1 hbS1, exc_pure]
    · refine LuaPure.tbl es1 st1 tr1 fl1 (some (sS, st2, bS)) (fun p hp => (hesG p hp).1)
        (fun q hq => (hst1G q hq).1) htrPP hflPP ?_ ?_ ?_
      · intro z hz v hv
        injection hz with h
        subst h
        exact hsS2 v hv
      · intro z hz v hv
        injection hz with h
        subst h
        exact hst2P v hv
      · intro z hz v hv
        injection hz with h
        subst h
        exact hbS2 v hv
    · have hq1 : pairMapM sf st1 = .ok st1 := pairMapM_id sf st1 (fun q hq => (hst1G q hq).2)
      have hq2 : pairMapM sf es1 = .ok es1 := pairMapM_id sf es1 (fun q hq => (hesG q hq).2)
      have hnb2 : optAndThen sf ((some (sS, st2, bS)).bind (fun z => z.2.1)) = .ok st2 := hst2F
      have hcnd2 : ((some (sS, st2, bS)).isSome || truthyO st2) = true := by simp
      have hS2 : optAndThen sf ((some (sS, st2, bS)).bind (fun z => z.1)) = .ok sS := hsS4
      have hB2 : optAndThen sf ((some (sS, st2, bS)).bind (fun z => z.2.2)) = .ok bS := hbS4
      have hty2 : tblTypedStep sf (some (sS, st2, bS)) st2 = .ok (some (sS, st2, bS)) :=
        tblTypedStep_some sf (some (sS, st2, bS)) st2 sS bS hcnd2 hS2 hB2
      simp only [tblSimplify, hq1, hnb2, hstFix, hq2, htrF, hflF, exc_bind_ok, hty2, exc_pure]

theorem sizeOf_snd_lt_of_mem {κ : Type} [SizeOf κ] (l : List (κ × LuaType))
    (p : κ × LuaType) (h : p ∈ l) : sizeOf p.2 < sizeOf l := by
  have h1 := List.sizeOf_lt_of_mem h
  obtain ⟨a, b⟩ := p
  simp only [Prod.mk.sizeOf_spec] at h1
  show sizeOf b < sizeOf l
  omega

theorem sizeOf_mem_opt (o : Option LuaType) (v : LuaType) (h : v ∈ o) :
    sizeOf v < sizeOf o := by
  cases o with
  | none => cases h
  | some w =>
    injection h with h2
    subst h2
    simp only [Option.some.sizeOf_spec]
    omega

theorem sizeOf_ty_slot1 (ty : Option (Option LuaType × Option LuaType × Option LuaType))
    (z : Option LuaType × Option LuaType × Option LuaType) (hz : z ∈ ty)
    (v : LuaType) (hv : v ∈ z.1) : sizeOf v < sizeOf ty := by
  cases ty with
  | none => cases hz
  | some w =>
    injection hz with h
    subst h
    obtain ⟨z1, z2, z3⟩ := w
    have h1 : sizeOf v < sizeOf z1 := sizeOf_mem_opt z1 v hv
    simp only [Option.some.sizeOf_spec, Prod.mk.sizeOf_spec]
    omega

theorem sizeOf_ty_slot2 (ty : Option (Option LuaType × Option LuaType × Option LuaType))
    (z : Option LuaType × Option LuaType × Option LuaType) (hz : z ∈ ty)
    (v : LuaType) (hv : v ∈ z.2.1) : sizeOf v < sizeOf ty := by
  cases ty with
  | none => cases hz
  | some w =>
    injection hz with h
    subst h
    obtain ⟨z1, z2, z3⟩ := w
    have h1 : sizeOf v < sizeOf z2 := sizeOf_mem_opt z2 v hv
    simp only [Option.some.sizeOf_spec, Prod.mk.sizeOf_spec]
    omega

theorem sizeOf_ty_slot3 (ty : Option (Option LuaType × Option LuaType × Option LuaType))
    (z : Option LuaType × Option LuaType × Option LuaType) (hz : z ∈ ty)
    (v : LuaType) (hv : v ∈ z.2.2) : sizeOf v < sizeOf ty := by
  cases ty with
  | none => cases hz
  | some w =>
    injection hz with h
    subst h
    obtain ⟨z1, z2, z3⟩ := w
    have h1 : sizeOf v < sizeOf z3 := sizeOf_mem_opt z3 v hv
    simp only [Option.some.sizeOf_spec, Prod.mk.sizeOf_spec]
    omega

/-- The function case of `simplify` on union-free slots, all simplified by a
`SimpGood` recursive simplifier: it succeeds and its output is a union-free
fixed point of the function case. -/
theorem fnSimplify_good (sf : LuaType → Except String LuaType)
    (ps : List (String × LuaType)) (vo : Option LuaType) (r : LuaType)
    (hps : ∀ p ∈ ps, SimpGood sf p.2)
    (hvo : ∀ v ∈ vo, SimpGood sf v) (hvoP : ∀ v ∈ vo, LuaPure v)
    (hr : SimpGood sf r) :
    ∃ ps' vo' r', fnSimplify sf ps vo r = .ok (.fn ps' vo' r') ∧
      LuaPure (.fn ps' vo' r') ∧
      fnSimplify sf ps' vo' r' = .ok (.fn ps' vo' r') := by
  obtain ⟨ps', hps1, hfa⟩ := pairMapM_spec sf ps
    (fun p hp => (hps p hp).imp (fun y hy => hy.1))
  have hpsG := pairMapM_good sf ps ps' hps hfa
  obtain ⟨vo', hv1, hv2, hv3, hv4⟩ := optAndThen_good sf vo hvo hvoP
  obtain ⟨r', hr1, hr2, hr3, hr4⟩ := hr
  refine ⟨ps', vo', r', ?_, ?_, ?_⟩
  · simp only [fnSimplify, hps1, hv1, hr1, exc_bind_ok, exc_pure]
  · exact LuaPure.fn ps' vo' r' (fun p hp => (hpsG p hp).1) hv2 hr2
  · simp only [fnSimplify, pairMapM_id sf ps' (fun q hq => (hpsG q hq).2), hv4, hr4,
      exc_bind_ok, exc_pure]

/-- Past `MAX_DEPTH` the simplifier returns its argument unchanged. -/
theorem simplifyAux_deep (f : Nat) (t : LuaType) (d : Nat) (hd : 5 < d) :
    simplifyAux (f + 1) t d = .ok t := by
  cases t <;> simp [simplifyAux, hd]

/-- On union-free, null-free inputs, `simplify`'s recursion succeeds at any
fuel/depth budget satisfying the entry point's invariant, and its result is
a union-free fixed point with the same JavaScript truthiness. -/
theorem simplifyAux_pure_good :
    ∀ (n : Nat) (t : LuaType), sizeOf t < n → LuaPure t →
    ∀ (fuel d : Nat), 0 < fuel → 7 ≤ fuel + d →
    SimpGood (fun v => simplifyAux fuel v d) t := by
  intro n
  induction n with
  | zero =>
    intro t ht
    omega
  | succ n ih =>
    intro t ht hpure fuel d hf hfd
    obtain ⟨f, rfl⟩ : ∃ f, fuel = f + 1 := ⟨fuel - 1, by omega⟩
    by_cases hd : 5 < d
    · exact ⟨t, simplifyAux_deep f t d hd, hpure, rfl, simplifyAux_deep f t d hd⟩
    · have hf' : 0 < f := by omega
      have hfd' : 7 ≤ f + (d + 1) := by omega
      cases hpure with
      | str s => exact ⟨.str s, rfl, .str s, rfl, rfl⟩
      | arr xs hxs =>
        have harr_lt : sizeOf xs < sizeOf (LuaType.arr xs) := by
          simp only [LuaType.arr.sizeOf_spec]
          omega
        have hG : ∀ x ∈ xs, SimpGood (fun v => simplifyAux f v (d + 1)) x := by
          intro x hx
          have hsz := List.sizeOf_lt_of_mem hx
          exact ih x (by omega) (hxs x hx) f (d + 1) hf' hfd'
        obtain ⟨xs', hmap, hfa⟩ := mapM_ok_of_forall (fun v => simplifyAux f v (d + 1)) xs
          (fun x hx => (hG x hx).imp (fun y hy => hy.1))
        have hgood := mapM_good (fun v => simplifyAux f v (d + 1)) xs xs' hG hfa
        refine ⟨.arr xs', ?_, LuaPure.arr xs' (fun y hy => (hgood y hy).1), rfl, ?_⟩
        · show simplifyAux (f + 1) (.arr xs) d = .ok (.arr xs')
          simp only [simplifyAux]
          rw [if_neg hd, hmap]
          rfl
        · show simplifyAux (f + 1) (.arr xs') d = .ok (.arr xs')
          simp only [simplifyAux]
          rw [if_neg hd, mapM_ok_id (fun v => simplifyAux f v (d + 1)) xs'
            (fun y hy => (hgood y hy).2)]
          rfl
      | fn ps vo r hps hvo hr =>
        have hfn_ps : sizeOf ps < sizeOf (LuaType.fn ps vo r) := by
          simp only [LuaType.fn.sizeOf_spec]
          omega
        have hfn_vo : sizeOf vo < sizeOf (LuaType.fn ps vo r) := by
          simp only [LuaType.fn.sizeOf_spec]
          omega
        have hfn_r : sizeOf r < sizeOf (LuaType.fn ps vo r) := by
          simp only [LuaType.fn.sizeOf_spec]
          omega
        have hGps : ∀ p ∈ ps, SimpGood (fun v => simplifyAux f v (d + 1)) p.2 := by
          intro p hp
          have hsz := sizeOf_snd_lt_of_mem ps p hp
          exact ih p.2 (by omega) (hps p hp) f (d + 1) hf' hfd'
        have hGvo : ∀ v ∈ vo, SimpGood (fun v => simplifyAux f v (d + 1)) v := by
          intro v hv
          have hsz := sizeOf_mem_opt vo v hv
          exact ih v (by omega) (hvo v hv) f (d + 1) hf' hfd'
        have hGr : SimpGood (fun v => simplifyAux f v (d + 1)) r :=
          ih r (by omega) hr f (d + 1) hf' hfd'
        obtain ⟨ps', vo', r', hEq, hP, hFix⟩ :=
          fnSimplify_good (fun v => simplifyAux f v (d + 1)) ps vo r hGps hGvo hvo hGr
        refine ⟨.fn ps' vo' r', ?_, hP, rfl, ?_⟩
        · show simplifyAux (f + 1) (.fn ps vo r) d = .ok (.fn ps' vo' r')
          simp only [simplifyAux]
          rw [if_neg hd]
          exact hEq
        · show simplifyAux (f + 1) (.fn ps' vo' r') d = .ok (.fn ps' vo' r')
          simp only [simplifyAux]
          rw [if_neg hd]
          exact hFix
      | tbl es seq tr fl ty h1 h2 h3 h4 h5 h6 h7 =>
        have htb_es : sizeOf es < sizeOf (LuaType.tbl es seq tr fl ty) := by
          simp only [LuaType.tbl.sizeOf_spec]
          omega
        have htb_seq : sizeOf seq < sizeOf (LuaType.tbl es seq tr fl ty) := by
          simp only [LuaType.tbl.sizeOf_spec]
          omega
        have htb_tr : sizeOf tr < sizeOf (LuaType.tbl es seq tr fl ty) := by
          simp only [LuaType.tbl.sizeOf_spec]
          omega
        have htb_fl : sizeOf fl < sizeOf (LuaType.tbl es seq tr fl ty) := by
          simp only [LuaType.tbl.sizeOf_spec]
          omega
        have htb_ty : sizeOf ty < sizeOf (LuaType.tbl es seq tr fl ty) := by
          simp only [LuaType.tbl.sizeOf_spec]
          omega
        have hGes : ∀ p ∈ es, SimpGood (fun v => simplifyAux f v (d + 1)) p.2 := by
          intro p hp
          have hsz := sizeOf_snd_lt_of_mem es p hp
          exact ih p.2 (by omega) (h1 p hp) f (d + 1) hf' hfd'
        have hGseq : ∀ p ∈ seq, SimpGood (fun v => simplifyAux f v (d + 1)) p.2 := by
          intro p hp
          have hsz := sizeOf_snd_lt_of_mem seq p hp
          exact ih p.2 (by omega) (h2 p hp) f (d + 1) hf' hfd'
        have hGtr : ∀ v ∈ tr, SimpGood (fun v => simplifyAux f v (d + 1)) v := by
          intro v hv
          have hsz := sizeOf_mem_opt tr v hv
          exact ih v (by omega) (h3 v hv) f (d + 1) hf' hfd'
        have hGfl : ∀ v ∈ fl, SimpGood (fun v => simplifyAux f v (d + 1)) v := by
          intro v hv
          have hsz := sizeOf_mem_opt fl v hv
          exact ih v (by omega) (h4 v hv) f (d + 1) hf' hfd'
        have hGty1 : ∀ z ∈ ty, ∀ v ∈ z.1, SimpGood (fun v => simplifyAux f v (d + 1)) v := by
          intro z hz v hv
          have hsz := sizeOf_ty_slot1 ty z hz v hv
          exact ih v (by omega) (h5 z hz v hv) f (d + 1) hf' hfd'
        have hGty2 : ∀ z ∈ ty, ∀ v ∈ z.2.1, SimpGood (fun v => simplifyAux f v (d + 1)) v := by
          intro z hz v hv
          have hsz := sizeOf_ty_slot2 ty z hz v hv
          exact ih v (by omega) (h6 z hz v hv) f (d + 1) hf' hfd'
        have hGty3 : ∀ z ∈ ty, ∀ v ∈ z.2.2, SimpGood (fun v => simplifyAux f v (d + 1)) v := by
          intro z hz v hv
          have hsz := sizeOf_ty_slot3 ty z hz v hv
          exact ih v (by omega) (h7 z hz v hv) f (d + 1) hf' hfd'
        obtain ⟨es', sq', tr', fl', ty', hEq, hP, hFix⟩ :=
          tblSimplify_good (fun v => simplifyAux f v (d + 1)) es seq tr fl ty
            hGes hGseq hGtr h3 hGfl h4 hGty1 h5 hGty2 h6 hGty3 h7
        refine ⟨.tbl es' sq' tr' fl' ty', ?_, hP, rfl, ?_⟩
        · show simplifyAux (f + 1) (.tbl es seq tr fl ty) d = .ok (.tbl es' sq' tr' fl' ty')
          simp only [simplifyAux]
          rw [if_neg hd]
          exact hEq
        · show simplifyAux (f + 1) (.tbl es' sq' tr' fl' ty') d = .ok (.tbl es' sq' tr' fl' ty')
          simp only [simplifyAux]
          rw [if_neg hd]
          exact hFix

/-- C9 (amended) - idempotence on the union-free fragment: for every
union-free, null-free type T, `simplify(simplify(T))` equals `simplify(T)`
structurally (the second run returns the first run's output unchanged).
The restriction is necessary: `claim_C9_counterexample` shows a union on
which the unrestricted claim fails. -/
theorem claim_C9 (t : LuaType) (h : LuaPure t) :
    (simplify t).bind simplify = simplify t := by
  obtain ⟨y, h1, h2, h3, h4⟩ :=
    simplifyAux_pure_good (sizeOf t + 1) t (Nat.lt_succ_self _) h 7 1 (by omega) (by omega)
  have h1' : simplify t = .ok y := h1
  have h4' : simplify y = .ok y := h4
  rw [h1']
  show simplify y = .ok y
  exact h4'

/-- Witness for the amended C9: the tuple type `[number, number]` is
union-free and `simplify` is idempotent on it. -/
theorem claim_C9_witness :
    LuaPure (.arr [.str "number", .str "number"]) ∧
    (simplify (.arr [.str "number", .str "number"])).bind simplify
      = simplify (.arr [.str "number", .str "number"]) := by
  have hp : LuaPure (.arr [.str "number", .str "number"]) := by
    refine .arr _ ?_
    intro x hx
    simp at hx
    subst hx
    exact .str "number"
  exact ⟨hp, claim_C9 _ hp⟩

theorem framesWFAux_parent :
    ∀ (l : List ScopeObj) (k : Nat), framesWFAux l k = true →
    ∀ (m : Nat) (f : ScopeObj), l.get? m = some f →
    ∀ j, f.parent = some j → j < k + m := by
  intro l
  induction l with
  | nil =>
    intro k _ m f hm
    cases hm
  | cons g rest ih =>
    intro k hwf m f hm j hp
    unfold framesWFAux at hwf
    simp only [Bool.and_eq_true] at hwf
    obtain ⟨hw1, hw2⟩ := hwf
    cases m with
    | zero =>
      have hgf : g = f := by
        have h0 : some g = some f := hm
        injection h0
      subst hgf
      rw [hp] at hw1
      have := of_decide_eq_true hw1
      omega
    | succ m' =>
      have := ih (k + 1) hw2 m' f hm j hp
      omega

/-- In a well-formed arena every prototype link points to an earlier slot. -/
theorem framesWF_parent (frames : List ScopeObj) (hwf : framesWF frames = true)
    (i : Nat) (f : ScopeObj) (hg : frames.get? i = some f)
    (j : Nat) (hp : f.parent = some j) : j < i := by
  have := framesWFAux_parent frames 0 hwf i f hg j hp
  omega

/-- A successful chain walk stays successful with more fuel. -/
theorem lookupChain_fuel_mono (frames : List ScopeObj) (x : String) :
    ∀ (fuel fuel' i : Nat) (r : Nat × LuaVariable), fuel ≤ fuel' →
    lookupChain frames fuel i x = some r →
    lookupChain frames fuel' i x = some r := by
  intro fuel
  induction fuel with
  | zero =>
    intro fuel' i r _ h
    simp [lookupChain] at h
  | succ fuel ih =>
    intro fuel' i r hle h
    obtain ⟨k, rfl⟩ : ∃ k, fuel' = k + 1 := ⟨fuel' - 1, by omega⟩
    unfold lookupChain at h ⊢
    cases hg : frames.get? i with
    | none =>
      simp only [hg] at h
      exact Option.noConfusion h
    | some f =>
      simp only [hg] at h ⊢
      cases hf : f.vars.find? (fun p => p.1 == x) with
      | some p =>
        simp only [hf] at h ⊢
        exact h
      | none =>
        simp only [hf] at h ⊢
        cases hp : f.parent with
        | none =>
          simp only [hp] at h
          exact Option.noConfusion h
        | some j =>
          simp only [hp] at h ⊢
          exact ih k j r (by omega) h

/-- Chain walks below the old arena size are unaffected by changes at or
beyond it. -/
theorem lookupChain_agree (frames frames' : List ScopeObj) (x : String)
    (hwf : framesWF frames = true)
    (hagree : ∀ j, j < frames.length → frames'.get? j = frames.get? j) :
    ∀ fuel i, i < frames.length →
      lookupChain frames' fuel i x = lookupChain frames fuel i x := by
  intro fuel
  induction fuel with
  | zero =>
    intro i _
    rfl
  | succ fuel ih =>
    intro i hi
    unfold lookupChain
    rw [hagree i hi]
    cases hg : frames.get? i with
    | none => rfl
    | some f =>
      dsimp only
      cases hf : f.vars.find? (fun p => p.1 == x) with
      | some p => rfl
      | none =>
        dsimp only [hf]
        cases hp : f.parent with
        | none => rfl
        | some j =>
          dsimp only [hp]
          have hj : j < i := framesWF_parent frames hwf i f hg j hp
          exact ih j (by omega)

/-- A successful chain walk starts and ends at populated arena slots. -/
theorem lookupChain_some_facts (frames : List ScopeObj) (x : String) :
    ∀ (fuel i : Nat) (r : Nat × LuaVariable),
    lookupChain frames fuel i x = some r →
    (∃ f, frames.get? i = some f) ∧ (∃ f, frames.get? r.1 = some f) := by
  intro fuel
  induction fuel with
  | zero =>
    intro i r h
    simp [lookupChain] at h
  | succ fuel ih =>
    intro i r h
    unfold lookupChain at h
    cases hg : frames.get? i with
    | none =>
      simp only [hg] at h
      exact Option.noConfusion h
    | some f =>
      simp only [hg] at h
      cases hf : f.vars.find? (fun p => p.1 == x) with
      | some p =>
        simp only [hf] at h
        injection h with h2
        subst h2
        exact ⟨⟨f, rfl⟩, ⟨f, hg⟩⟩
      | none =>
        simp only [hf] at h
        cases hp : f.parent with
        | none =>
          simp only [hp] at h
          exact Option.noConfusion h
        | some j =>
          simp only [hp] at h
          exact ⟨⟨f, rfl⟩, (ih j r h).2⟩

/-- `variableDeclare` on a collision-free target writes the one-entry
history there. -/
theorem variableDeclare_eq (s : WalkerState) (x : String) (rng : LuaRange) (ty : LuaType)
    (sc : Option Nat) (tgt : Nat) (htgt : sc.getD s.currentScope = tgt)
    (f : ScopeObj) (hget : s.frames.get? tgt = some f)
    (hown : f.vars.find? (fun p => p.1 == x) = none) :
    variableDeclare s x rng ty sc
      = {s with frames := s.frames.set tgt {f with vars := f.vars ++
          [(x, {types := [ty], ranges := [rng], scopes := [tgt], doc := none})]}} := by
  unfold variableDeclare
  simp only [htgt, hget, hown, Option.isSome_none, Bool.false_eq_true, if_false]

/-- C6 - scope shadowing: in a well-formed arena, when `x` resolves from the
current scope to arena slot `i` holding `v`, declaring `x` in a freshly
forked child scope leaves slot `i`'s scope object untouched, and after the
child is closed with `scopeRestore` a lookup of `x` resolves to `v` again. -/
theorem claim_C6 (s : WalkerState) (x : String) (i : Nat) (v : LuaVariable)
    (rangeF rngD : LuaRange) (tag : String) (ty : LuaType)
    (hwf : framesWF s.frames = true)
    (hlk : lookupChain s.frames s.frames.length s.currentScope x = some (i, v)) :
    (variableDeclare (scopeFork s rangeF tag).1 x rngD ty none).frames.get? i
      = s.frames.get? i ∧
    variableLookup
      (scopeRestore (variableDeclare (scopeFork s rangeF tag).1 x rngD ty none)
        (scopeFork s rangeF tag).2) x = some v := by
  obtain ⟨⟨fc, hfc⟩, ⟨fi, hfi⟩⟩ :=
    lookupChain_some_facts s.frames x s.frames.length s.currentScope (i, v) hlk
  have hcur : s.currentScope < s.frames.length := (List.get?_eq_some.mp hfc).1
  have hi : i < s.frames.length := (List.get?_eq_some.mp hfi).1
  have hchild : (scopeFork s rangeF tag).1.frames.get? s.frames.length
      = some {parent := some s.currentScope, vars := [], labels := [], tag := tag} := by
    show ((s.frames ++ [_]).get? s.frames.length) = _
    exact List.get?_concat_length _ _
  have hdecl := variableDeclare_eq (scopeFork s rangeF tag).1 x rngD ty none
    s.frames.length rfl _ hchild rfl
  have hagree : ∀ j, j < s.frames.length →
      (variableDeclare (scopeFork s rangeF tag).1 x rngD ty none).frames.get? j
        = s.frames.get? j := by
    intro j hj
    rw [hdecl]
    show ((s.frames ++ [_]).set s.frames.length _).get? j = _
    rw [List.get?_set_ne _ _ (by omega)]
    exact List.get?_append hj
  have hlen2 : (variableDeclare (scopeFork s rangeF tag).1 x rngD ty none).frames.length
      = s.frames.length + 1 := by
    rw [hdecl]
    show ((s.frames ++ [_]).set s.frames.length _).length = _
    rw [List.length_set, List.length_append]
    rfl
  refine ⟨hagree i hi, ?_⟩
  have hmono := lookupChain_fuel_mono s.frames x s.frames.length (s.frames.length + 1)
    s.currentScope (i, v) (by omega) hlk
  have hag := lookupChain_agree s.frames
    (variableDeclare (scopeFork s rangeF tag).1 x rngD ty none).frames x hwf
    hagree (s.frames.length + 1) s.currentScope hcur
  show (lookupChain
      (variableDeclare (scopeFork s rangeF tag).1 x rngD ty none).frames
      (variableDeclare (scopeFork s rangeF tag).1 x rngD ty none).frames.length
      s.currentScope x).map (fun p => p.2) = some v
  rw [hlen2, hag, hmono]
  rfl

/-- Witness for C6: in the two-scope arena `exWalkerNested`, `x` resolves to
the global slot 0; declaring `x` in a fork of the nested scope leaves slot 0
unchanged and a post-restore lookup still yields `exVarX`. -/
theorem claim_C6_witness :
    framesWF exWalkerNested.frames = true ∧
    lookupChain exWalkerNested.frames exWalkerNested.frames.length
      exWalkerNested.currentScope "x" = some (0, exVarX) ∧
    ((variableDeclare (scopeFork exWalkerNested exRange2 "do fork").1 "x" exRange2
        (.str "string") none).frames.get? 0 = exWalkerNested.frames.get? 0 ∧
      variableLookup
        (scopeRestore (variableDeclare (scopeFork exWalkerNested exRange2 "do fork").1 "x"
          exRange2 (.str "string") none) (scopeFork exWalkerNested exRange2 "do fork").2)
        "x" = some exVarX) :=
  ⟨rfl, rfl, claim_C6 exWalkerNested "x" 0 exVarX exRange2 exRange2 "do fork"
    (.str "string") rfl rfl⟩

/-- In a well-formed arena the chain root lies at or below the start slot. -/
theorem chainRoot_le (frames : List ScopeObj) (hwf : framesWF frames = true) :
    ∀ fuel i root, chainRoot frames fuel i = some root → root ≤ i := by
  intro fuel
  induction fuel with
  | zero =>
    intro i root h
    simp [chainRoot] at h
  | succ fuel ih =>
    intro i root h
    unfold chainRoot at h
    cases hg : frames.get? i with
    | none =>
      simp only [hg] at h
      exact Option.noConfusion h
    | some f =>
      simp only [hg] at h
      cases hp : f.parent with
      | some j =>
        simp only [hp] at h
        have hj : j < i := framesWF_parent frames hwf i f hg j hp
        have := ih j root h
        omega
      | none =>
        simp only [hp] at h
        injection h with h2
        omega

/-- When a chain walk misses, the chain's root object does not own the name
either. -/
theorem lookup_none_root_own (frames : List ScopeObj) (x : String) :
    ∀ fuel i root,
    lookupChain frames fuel i x = none → chainRoot frames fuel i = some root →
    ∃ f, frames.get? root = some f ∧ f.vars.find? (fun p => p.1 == x) = none := by
  intro fuel
  induction fuel with
  | zero =>
    intro i root _ hr
    simp [chainRoot] at hr
  | succ fuel ih =>
    intro i root hn hr
    unfold lookupChain at hn
    unfold chainRoot at hr
    cases hg : frames.get? i with
    | none =>
      simp only [hg] at hr
      exact Option.noConfusion hr
    | some f =>
      simp only [hg] at hn hr
      cases hf : f.vars.find? (fun p => p.1 == x) with
      | some p =>
        simp only [hf] at hn
        exact Option.noConfusion hn
      | none =>
        simp only [hf] at hn
        cases hp : f.parent with
        | some j =>
          simp only [hp] at hn hr
          exact ih j root hn hr
        | none =>
          simp only [hp] at hr
          injection hr with h2
          subst h2
          exact ⟨f, hg, hf⟩

/-- Writing a binding for `x` into the chain's root makes a previously
missing `x` resolve to the root from anywhere on that chain. -/
theorem lookupChain_set_root_found (frames : List ScopeObj) (x : String)
    (hwf : framesWF frames = true) (root : Nat) (g' : ScopeObj)
    (p : String × LuaVariable)
    (hfind : g'.vars.find? (fun q => q.1 == x) = some p) :
    ∀ fuel i,
    lookupChain frames fuel i x = none → chainRoot frames fuel i = some root →
    lookupChain (frames.set root g') fuel i x = some (root, p.2) := by
  intro fuel
  induction fuel with
  | zero =>
    intro i _ hr
    simp [chainRoot] at hr
  | succ fuel ih =>
    intro i hn hr
    unfold lookupChain at hn ⊢
    unfold chainRoot at hr
    cases hg : frames.get? i with
    | none =>
      simp only [hg] at hr
      exact Option.noConfusion hr
    | some f =>
      simp only [hg] at hn hr
      cases hf : f.vars.find? (fun q => q.1 == x) with
      | some q =>
        simp only [hf] at hn
        exact Option.noConfusion hn
      | none =>
        simp only [hf] at hn
        cases hp : f.parent with
        | none =>
          simp only [hp] at hr
          injection hr with h2
          subst h2
          have hilen : i < frames.length := (List.get?_eq_some.mp hg).1
          have hgi : (frames.set i g').get? i = some g' := List.get?_set_eq_of_lt g' hilen
          simp only [hgi, hfind]
        | some j =>
          simp only [hp] at hn hr
          have hj : j < i := framesWF_parent frames hwf i f hg j hp
          have hroot_le : root ≤ j := chainRoot_le frames hwf fuel j root hr
          have hgi : (frames.set root g').get? i = some f := by
            rw [List.get?_set_ne g' frames (by omega)]
            exact hg
          simp only [hgi, hf, hp]
          exact ih j hn hr

/-- `variableUpdate` on a resolvable name rewrites the owning slot in
place. -/
theorem variableUpdate_eq (s : WalkerState) (x : String) (rng : LuaRange) (ty : LuaType)
    (sc : Option Nat) (i : Nat) (v : LuaVariable)
    (hlk : lookupChain s.frames s.frames.length s.currentScope x = some (i, v))
    (f : ScopeObj) (hget : s.frames.get? i = some f) (v' : LuaVariable)
    (hv' : v' = {v with types := ty :: v.types, ranges := rng :: v.ranges, scopes := sc.getD s.currentScope :: v.scopes})
    (f' : ScopeObj)
    (hf' : f' = {f with vars := f.vars.map (fun p => if p.1 == x then (p.1, v') else p)}) :
    variableUpdate s x rng ty sc = {s with frames := s.frames.set i f'} := by
  subst hv'
  subst hf'
  unfold variableUpdate
  simp only [hlk, hget]

/-- `variableReference` is the identity when the latest history entry starts
at the referenced position. -/
theorem variableReference_skip (s : WalkerState) (x : String) (rng : LuaRange)
    (i : Nat) (v : LuaVariable)
    (hlk : lookupChain s.frames s.frames.length s.currentScope x = some (i, v))
    (r0 : LuaRange) (hh : v.ranges.head? = some r0)
    (hpos : (r0.start.line == rng.start.line && r0.start.character == rng.start.character)
      = true) :
    variableReference s x rng = s := by
  unfold variableReference
  simp only [hlk, hh, hpos, if_true]

theorem symbolExit_frames (s : WalkerState) (d : Option String) :
    (symbolExit s d).frames = s.frames := by
  unfold symbolExit
  cases hs : s.symStack with
  | nil => rfl
  | cons f rest =>
    cases rest with
    | nil => rfl
    | cons g rest2 => rfl

theorem symbolExit_currentScope (s : WalkerState) (d : Option String) :
    (symbolExit s d).currentScope = s.currentScope := by
  unfold symbolExit
  cases hs : s.symStack with
  | nil => rfl
  | cons f rest =>
    cases rest with
    | nil => rfl
    | cons g rest2 => rfl

theorem symbolExit_diagnostics (s : WalkerState) (d : Option String) :
    (symbolExit s d).diagnostics = s.diagnostics := by
  unfold symbolExit
  cases hs : s.symStack with
  | nil => rfl
  | cons f rest =>
    cases rest with
    | nil => rfl
    | cons g rest2 => rfl

/-- The `Identifier` handler when the node carries no `augType` yet and the
reference step is a no-op. -/
theorem identifierHandler_none (s : WalkerState) (x : String) (rng : LuaRange) (b : Bool)
    (hskip : variableReference s x rng = s)
    (a : Option LuaType) (ha : (variableLookup s x).bind (fun v => v.types.head?) = a) :
    identifierHandler s x rng none b = (variableLocate s x rng b, a) := by
  unfold identifierHandler
  rw [if_pos (show (Option.isNone (none : Option LuaType)) = true from rfl)]
  dsimp only
  rw [hskip, ha]

/-- The first `AssignmentStatement` pass on a single invisible identifier
target. -/
theorem assignPassOne_single (s : WalkerState) (t : IdentTarget)
    (hvlk : variableLookup s t.name = none)
    (W : WalkerState) (a : Option LuaType)
    (hIH : identifierHandler
        (variableDeclare (symbolEnter s t.name 19 t.range t.range) t.name t.range
          (.str "nil") (some (symbolEnter s t.name 19 t.range t.range).globalScope))
        t.name t.range none false = (W, a)) :
    assignPassOne s [t] = (symbolExit W none, [a]) := by
  unfold assignPassOne
  simp only [List.foldl_cons, List.foldl_nil, hvlk, Option.isNone_none]
  rw [if_pos trivial, hIH]
  rfl

/-- The second `AssignmentStatement` pass on a single now-visible identifier
target whose first pass produced an `augType`. -/
theorem assignPassTwo_single (W : WalkerState) (t : IdentTarget)
    (a0 : Option LuaType) (ty0 : LuaType) (types : List (Option LuaType))
    (hty : ((types.get? 0).bind id).getD (.str "nil") = ty0)
    (i : Nat) (v : LuaVariable)
    (hlkW : lookupChain W.frames W.frames.length W.currentScope t.name = some (i, v))
    (hA : a0.isNone = false) :
    assignPassTwo W [t] [a0] types
      = variableLocate (variableUpdate W t.name t.range ty0 v.scopes.head?)
          t.name t.range false := by
  unfold assignPassTwo
  have he : ([t] : List IdentTarget).enum = [(0, t)] := rfl
  rw [he]
  simp only [List.foldl_cons, List.foldl_nil]
  rw [hty]
  simp only [hlkW]
  unfold identifierHandler
  rw [if_neg (by simp [hA])]

/-- C5 - implicit global declaration: an assignment to a bare identifier not
visible from the current scope chain declares the name in the *global*
scope, emits no diagnostic, leaves the current (nested) scope object
untouched, and afterwards the name resolves to the global binding from any
scope chaining to the same global root where it was previously invisible. -/
theorem claim_C5 (s : WalkerState) (t : IdentTarget)
    (hwf : framesWF s.frames = true)
    (hroot : chainRoot s.frames s.frames.length s.currentScope = some s.globalScope)
    (hlk : lookupChain s.frames s.frames.length s.currentScope t.name = none) :
    (assignmentStatementIdents s [t] [none]).diagnostics = s.diagnostics ∧
    (∃ f vv, (assignmentStatementIdents s [t] [none]).frames.get? s.globalScope = some f ∧
      (f.vars.find? (fun p => p.1 == t.name)).map Prod.snd = some vv) ∧
    (s.currentScope ≠ s.globalScope →
      (assignmentStatementIdents s [t] [none]).frames.get? s.currentScope = s.frames.get? s.currentScope) ∧
    (∀ j, lookupChain s.frames s.frames.length j t.name = none →
      chainRoot s.frames s.frames.length j = some s.globalScope →
      ∃ vv, lookupChain (assignmentStatementIdents s [t] [none]).frames (assignmentStatementIdents s [t] [none]).frames.length j t.name
        = some (s.globalScope, vv)) := by
  obtain ⟨g0, hg0, hgown⟩ := lookup_none_root_own s.frames t.name s.frames.length
    s.currentScope s.globalScope hlk hroot
  have hglen : s.globalScope < s.frames.length := (List.get?_eq_some.mp hg0).1
  have hvlk : variableLookup s t.name = none := by
    unfold variableLookup
    rw [hlk]
    rfl
  have hfs := find_append_single t.name ({types := [LuaType.str "nil"], ranges := [t.range], scopes := [s.globalScope], doc := none} : LuaVariable) g0.vars hgown
  obtain ⟨q1, hq1, hq1v⟩ : ∃ q, (g0.vars ++ [(t.name, ({types := [LuaType.str "nil"], ranges := [t.range], scopes := [s.globalScope], doc := none} : LuaVariable))]).find?
      (fun p => p.1 == t.name) = some q ∧ q.2 = ({types := [LuaType.str "nil"], ranges := [t.range], scopes := [s.globalScope], doc := none} : LuaVariable) := by
    cases hc : (g0.vars ++ [(t.name, ({types := [LuaType.str "nil"], ranges := [t.range], scopes := [s.globalScope], doc := none} : LuaVariable))]).find? (fun p => p.1 == t.name) with
    | none =>
      rw [hc] at hfs
      exact Option.noConfusion hfs
    | some q =>
      rw [hc] at hfs
      simp at hfs
      exact ⟨q, rfl, hfs⟩
  have hD : (variableDeclare (symbolEnter s t.name 19 t.range t.range) t.name t.range (LuaType.str "nil") (some (symbolEnter s t.name 19 t.range t.range).globalScope)) = {(symbolEnter s t.name 19 t.range t.range) with frames := s.frames.set s.globalScope {g0 with vars := g0.vars ++ [(t.name, ({types := [LuaType.str "nil"], ranges := [t.range], scopes := [s.globalScope], doc := none} : LuaVariable))]}} :=
    variableDeclare_eq (symbolEnter s t.name 19 t.range t.range) t.name t.range (LuaType.str "nil")
      (some (symbolEnter s t.name 19 t.range t.range).globalScope) s.globalScope rfl g0 hg0 hgown
  have hlkD : lookupChain (s.frames.set s.globalScope {g0 with vars := g0.vars ++ [(t.name, ({types := [LuaType.str "nil"], ranges := [t.range], scopes := [s.globalScope], doc := none} : LuaVariable))]}) s.frames.length
      s.currentScope t.name = some (s.globalScope, q1.2) :=
    lookupChain_set_root_found s.frames t.name hwf s.globalScope {g0 with vars := g0.vars ++ [(t.name, ({types := [LuaType.str "nil"], ranges := [t.range], scopes := [s.globalScope], doc := none} : LuaVariable))]} q1 hq1
      s.frames.length s.currentScope hlk hroot
  have hlkD2 : lookupChain (variableDeclare (symbolEnter s t.name 19 t.range t.range) t.name t.range (LuaType.str "nil") (some (symbolEnter s t.name 19 t.range t.range).globalScope)).frames (variableDeclare (symbolEnter s t.name 19 t.range t.range) t.name t.range (LuaType.str "nil") (some (symbolEnter s t.name 19 t.range t.range).globalScope)).frames.length (variableDeclare (symbolEnter s t.name 19 t.range t.range) t.name t.range (LuaType.str "nil") (some (symbolEnter s t.name 19 t.range t.range).globalScope)).currentScope t.name
      = some (s.globalScope, q1.2) := by
    rw [hD]
    show lookupChain (s.frames.set s.globalScope {g0 with vars := g0.vars ++ [(t.name, ({types := [LuaType.str "nil"], ranges := [t.range], scopes := [s.globalScope], doc := none} : LuaVariable))]})
      (s.frames.set s.globalScope {g0 with vars := g0.vars ++ [(t.name, ({types := [LuaType.str "nil"], ranges := [t.range], scopes := [s.globalScope], doc := none} : LuaVariable))]}).length s.currentScope t.name = _
    rw [List.length_set]
    exact hlkD
  have hskipD : variableReference (variableDeclare (symbolEnter s t.name 19 t.range t.range) t.name t.range (LuaType.str "nil") (some (symbolEnter s t.name 19 t.range t.range).globalScope)) t.name t.range = (variableDeclare (symbolEnter s t.name 19 t.range t.range) t.name t.range (LuaType.str "nil") (some (symbolEnter s t.name 19 t.range t.range).globalScope)) :=
    variableReference_skip (variableDeclare (symbolEnter s t.name 19 t.range t.range) t.name t.range (LuaType.str "nil") (some (symbolEnter s t.name 19 t.range t.range).globalScope)) t.name t.range s.globalScope q1.2 hlkD2 t.range
      (by rw [hq1v]; rfl) (by simp)
  have hvlkD : variableLookup (variableDeclare (symbolEnter s t.name 19 t.range t.range) t.name t.range (LuaType.str "nil") (some (symbolEnter s t.name 19 t.range t.range).globalScope)) t.name = some q1.2 := by
    unfold variableLookup
    rw [hlkD2]
    rfl
  have haD : (variableLookup (variableDeclare (symbolEnter s t.name 19 t.range t.range) t.name t.range (LuaType.str "nil") (some (symbolEnter s t.name 19 t.range t.range).globalScope)) t.name).bind (fun v => v.types.head?)
      = some (LuaType.str "nil") := by
    rw [hvlkD, hq1v]
    rfl
  have hIH : identifierHandler (variableDeclare (symbolEnter s t.name 19 t.range t.range) t.name t.range (LuaType.str "nil") (some (symbolEnter s t.name 19 t.range t.range).globalScope)) t.name t.range none false
      = (variableLocate (variableDeclare (symbolEnter s t.name 19 t.range t.range) t.name t.range (LuaType.str "nil") (some (symbolEnter s t.name 19 t.range t.range).globalScope)) t.name t.range false, some (LuaType.str "nil")) :=
    identifierHandler_none (variableDeclare (symbolEnter s t.name 19 t.range t.range) t.name t.range (LuaType.str "nil") (some (symbolEnter s t.name 19 t.range t.range).globalScope)) t.name t.range false hskipD _ haD
  have hP1 : assignPassOne s [t]
      = ((symbolExit (variableLocate (variableDeclare (symbolEnter s t.name 19 t.range t.range) t.name t.range (LuaType.str "nil") (some (symbolEnter s t.name 19 t.range t.range).globalScope)) t.name t.range false) none), [some (LuaType.str "nil")]) :=
    assignPassOne_single s t hvlk _ _ hIH
  have hWfr : (symbolExit (variableLocate (variableDeclare (symbolEnter s t.name 19 t.range t.range) t.name t.range (LuaType.str "nil") (some (symbolEnter s t.name 19 t.range t.range).globalScope)) t.name t.range false) none).frames = s.frames.set s.globalScope {g0 with vars := g0.vars ++ [(t.name, ({types := [LuaType.str "nil"], ranges := [t.range], scopes := [s.globalScope], doc := none} : LuaVariable))]} := by
    rw [symbolExit_frames]
    show (variableDeclare (symbolEnter s t.name 19 t.range t.range) t.name t.range (LuaType.str "nil") (some (symbolEnter s t.name 19 t.range t.range).globalScope)).frames = _
    rw [hD]
  have hWcur : (symbolExit (variableLocate (variableDeclare (symbolEnter s t.name 19 t.range t.range) t.name t.range (LuaType.str "nil") (some (symbolEnter s t.name 19 t.range t.range).globalScope)) t.name t.range false) none).currentScope = s.currentScope := by
    rw [symbolExit_currentScope]
    show (variableDeclare (symbolEnter s t.name 19 t.range t.range) t.name t.range (LuaType.str "nil") (some (symbolEnter s t.name 19 t.range t.range).globalScope)).currentScope = _
    rw [hD]
    rfl
  have hWdiag : (symbolExit (variableLocate (variableDeclare (symbolEnter s t.name 19 t.range t.range) t.name t.range (LuaType.str "nil") (some (symbolEnter s t.name 19 t.range t.range).globalScope)) t.name t.range false) none).diagnostics = s.diagnostics := by
    rw [symbolExit_diagnostics]
    show (variableDeclare (symbolEnter s t.name 19 t.range t.range) t.name t.range (LuaType.str "nil") (some (symbolEnter s t.name 19 t.range t.range).globalScope)).diagnostics = _
    rw [hD]
    rfl
  have hlkW : lookupChain (symbolExit (variableLocate (variableDeclare (symbolEnter s t.name 19 t.range t.range) t.name t.range (LuaType.str "nil") (some (symbolEnter s t.name 19 t.range t.range).globalScope)) t.name t.range false) none).frames (symbolExit (variableLocate (variableDeclare (symbolEnter s t.name 19 t.range t.range) t.name t.range (LuaType.str "nil") (some (symbolEnter s t.name 19 t.range t.range).globalScope)) t.name t.range false) none).frames.length (symbolExit (variableLocate (variableDeclare (symbolEnter s t.name 19 t.range t.range) t.name t.range (LuaType.str "nil") (some (symbolEnter s t.name 19 t.range t.range).globalScope)) t.name t.range false) none).currentScope t.name
      = some (s.globalScope, q1.2) := by
    rw [hWfr, hWcur, List.length_set]
    exact hlkD
  have hget2 : (symbolExit (variableLocate (variableDeclare (symbolEnter s t.name 19 t.range t.range) t.name t.range (LuaType.str "nil") (some (symbolEnter s t.name 19 t.range t.range).globalScope)) t.name t.range false) none).frames.get? s.globalScope = some {g0 with vars := g0.vars ++ [(t.name, ({types := [LuaType.str "nil"], ranges := [t.range], scopes := [s.globalScope], doc := none} : LuaVariable))]} := by
    rw [hWfr]
    exact List.get?_set_eq_of_lt _ hglen
  obtain ⟨v2, hv2⟩ : ∃ v2, v2 = {q1.2 with types := LuaType.str "nil" :: q1.2.types, ranges := t.range :: q1.2.ranges, scopes := (q1.2.scopes.head?).getD (symbolExit (variableLocate (variableDeclare (symbolEnter s t.name 19 t.range t.range) t.name t.range (LuaType.str "nil") (some (symbolEnter s t.name 19 t.range t.range).globalScope)) t.name t.range false) none).currentScope :: q1.2.scopes} := ⟨_, rfl⟩
  obtain ⟨G2, hG2⟩ : ∃ f2, f2 = {{g0 with vars := g0.vars ++ [(t.name, ({types := [LuaType.str "nil"], ranges := [t.range], scopes := [s.globalScope], doc := none} : LuaVariable))]} with vars := (g0.vars ++ [(t.name, ({types := [LuaType.str "nil"], ranges := [t.range], scopes := [s.globalScope], doc := none} : LuaVariable))]).map (fun (p : String × LuaVariable) => if p.1 == t.name then (p.1, v2) else p)} := ⟨_, rfl⟩
  have hU : variableUpdate (symbolExit (variableLocate (variableDeclare (symbolEnter s t.name 19 t.range t.range) t.name t.range (LuaType.str "nil") (some (symbolEnter s t.name 19 t.range t.range).globalScope)) t.name t.range false) none) t.name t.range (LuaType.str "nil") q1.2.scopes.head?
      = {(symbolExit (variableLocate (variableDeclare (symbolEnter s t.name 19 t.range t.range) t.name t.range (LuaType.str "nil") (some (symbolEnter s t.name 19 t.range t.range).globalScope)) t.name t.range false) none) with frames := (symbolExit (variableLocate (variableDeclare (symbolEnter s t.name 19 t.range t.range) t.name t.range (LuaType.str "nil") (some (symbolEnter s t.name 19 t.range t.range).globalScope)) t.name t.range false) none).frames.set s.globalScope G2} :=
    variableUpdate_eq (symbolExit (variableLocate (variableDeclare (symbolEnter s t.name 19 t.range t.range) t.name t.range (LuaType.str "nil") (some (symbolEnter s t.name 19 t.range t.range).globalScope)) t.name t.range false) none) t.name t.range (LuaType.str "nil") q1.2.scopes.head?
      s.globalScope q1.2 hlkW {g0 with vars := g0.vars ++ [(t.name, ({types := [LuaType.str "nil"], ranges := [t.range], scopes := [s.globalScope], doc := none} : LuaVariable))]} hget2 v2 hv2 G2 hG2
  have hA2 := assignPassTwo_single (symbolExit (variableLocate (variableDeclare (symbolEnter s t.name 19 t.range t.range) t.name t.range (LuaType.str "nil") (some (symbolEnter s t.name 19 t.range t.range).globalScope)) t.name t.range false) none) t (some (LuaType.str "nil")) (LuaType.str "nil")
    (resolveListOfTypes (([none] : List (Option LuaType)).map (fun o => some (o.getD (.str "nil"))))) (by rfl) s.globalScope q1.2 hlkW rfl
  have hMain : assignmentStatementIdents s [t] [none]
      = variableLocate (variableUpdate (symbolExit (variableLocate (variableDeclare (symbolEnter s t.name 19 t.range t.range) t.name t.range (LuaType.str "nil") (some (symbolEnter s t.name 19 t.range t.range).globalScope)) t.name t.range false) none) t.name t.range (LuaType.str "nil")
          q1.2.scopes.head?) t.name t.range false := by
    unfold assignmentStatementIdents
    rw [hP1]
    exact hA2
  have hFr : (assignmentStatementIdents s [t] [none]).frames = s.frames.set s.globalScope G2 := by
    rw [hMain]
    show (variableUpdate (symbolExit (variableLocate (variableDeclare (symbolEnter s t.name 19 t.range t.range) t.name t.range (LuaType.str "nil") (some (symbolEnter s t.name 19 t.range t.range).globalScope)) t.name t.range false) none) t.name t.range (LuaType.str "nil")
      q1.2.scopes.head?).frames = _
    rw [hU]
    show (symbolExit (variableLocate (variableDeclare (symbolEnter s t.name 19 t.range t.range) t.name t.range (LuaType.str "nil") (some (symbolEnter s t.name 19 t.range t.range).globalScope)) t.name t.range false) none).frames.set s.globalScope G2 = _
    rw [hWfr, List.set_set]
  have hmr2 : (G2.vars.find? (fun q => q.1 == t.name)).map Prod.snd = some v2 := by
    rw [hG2]
    show (((g0.vars ++ [(t.name, ({types := [LuaType.str "nil"], ranges := [t.range], scopes := [s.globalScope], doc := none} : LuaVariable))]).map
      (fun p => if p.1 == t.name then (p.1, v2) else p)).find?
      (fun q => q.1 == t.name)).map Prod.snd = some v2
    rw [find_map_replace, hq1]
    rfl
  refine ⟨?_, ?_, ?_, ?_⟩
  · rw [hMain]
    show (variableUpdate (symbolExit (variableLocate (variableDeclare (symbolEnter s t.name 19 t.range t.range) t.name t.range (LuaType.str "nil") (some (symbolEnter s t.name 19 t.range t.range).globalScope)) t.name t.range false) none) t.name t.range (LuaType.str "nil")
      q1.2.scopes.head?).diagnostics = s.diagnostics
    rw [hU]
    show (symbolExit (variableLocate (variableDeclare (symbolEnter s t.name 19 t.range t.range) t.name t.range (LuaType.str "nil") (some (symbolEnter s t.name 19 t.range t.range).globalScope)) t.name t.range false) none).diagnostics = _
    exact hWdiag
  · refine ⟨G2, v2, ?_, hmr2⟩
    rw [hFr]
    exact List.get?_set_eq_of_lt _ hglen
  · intro hne
    rw [hFr]
    exact List.get?_set_ne G2 s.frames (fun hh => hne hh.symm)
  · intro j hjn hjr
    obtain ⟨pF, hpF⟩ : ∃ p, G2.vars.find? (fun q => q.1 == t.name) = some p := by
      cases hc : G2.vars.find? (fun q => q.1 == t.name) with
      | none =>
        rw [hc] at hmr2
        exact Option.noConfusion hmr2
      | some p => exact ⟨p, rfl⟩
    refine ⟨pF.2, ?_⟩
    rw [hFr, List.length_set]
    exact lookupChain_set_root_found s.frames t.name hwf s.globalScope G2 pF hpF
      s.frames.length j hjn hjr

/-- Witness for C5: in `exWalkerNested` (current scope 1 chaining to global
slot 0) the name `y` is invisible; the assignment handler declares it
globally with no diagnostic, leaves the nested scope object untouched, and
`y` resolves from the sibling position afterwards. -/
theorem claim_C5_witness :
    framesWF exWalkerNested.frames = true ∧
    chainRoot exWalkerNested.frames exWalkerNested.frames.length
      exWalkerNested.currentScope = some exWalkerNested.globalScope ∧
    lookupChain exWalkerNested.frames exWalkerNested.frames.length
      exWalkerNested.currentScope "y" = none ∧
    ((assignmentStatementIdents exWalkerNested [{name := "y", range := exRange2}]
        [none]).diagnostics = exWalkerNested.diagnostics ∧
      (∃ f vv, (assignmentStatementIdents exWalkerNested [{name := "y", range := exRange2}]
          [none]).frames.get? exWalkerNested.globalScope = some f ∧
        (f.vars.find? (fun p => p.1 == "y")).map Prod.snd = some vv) ∧
      (exWalkerNested.currentScope ≠ exWalkerNested.globalScope →
        (assignmentStatementIdents exWalkerNested [{name := "y", range := exRange2}]
          [none]).frames.get? exWalkerNested.currentScope
          = exWalkerNested.frames.get? exWalkerNested.currentScope) ∧
      (∀ j, lookupChain exWalkerNested.frames exWalkerNested.frames.length j "y" = none →
        chainRoot exWalkerNested.frames exWalkerNested.frames.length j
          = some exWalkerNested.globalScope →
        ∃ vv, lookupChain
          (assignmentStatementIdents exWalkerNested [{name := "y", range := exRange2}]
            [none]).frames
          (assignmentStatementIdents exWalkerNested [{name := "y", range := exRange2}]
            [none]).frames.length j "y" = some (exWalkerNested.globalScope, vv))) :=
  ⟨rfl, rfl, rfl,
    claim_C5 exWalkerNested {name := "y", range := exRange2} rfl rfl rfl⟩

/-- In a well-formed arena the chain walk's result does not depend on the
fuel, once the fuel exceeds the start slot (links only descend). -/
theorem lookupChain_fuel_stable (frames : List ScopeObj) (x : String)
    (hwf : framesWF frames = true) :
    ∀ (i f1 f2 : Nat), i < f1 → i < f2 →
    lookupChain frames f1 i x = lookupChain frames f2 i x := by
  intro i
  induction i using Nat.strong_induction_on with
  | _ i ih =>
    intro f1 f2 h1 h2
    obtain ⟨a, rfl⟩ : ∃ a, f1 = a + 1 := ⟨f1 - 1, by omega⟩
    obtain ⟨b, rfl⟩ : ∃ b, f2 = b + 1 := ⟨f2 - 1, by omega⟩
    unfold lookupChain
    cases hg : frames.get? i with
    | none => rfl
    | some f =>
      dsimp only
      cases hf : f.vars.find? (fun p => p.1 == x) with
      | some p => rfl
      | none =>
        dsimp only [hf]
        cases hp : f.parent with
        | none => rfl
        | some j =>
          dsimp only [hp]
          have hj : j < i := framesWF_parent frames hwf i f hg j hp
          exact ih j hj a b (by omega) (by omega)

/-- The scope-chain enumeration below the old arena size is unaffected by
changes at or beyond it. -/
theorem chainEntries_agree (frames frames' : List ScopeObj)
    (hwf : framesWF frames = true)
    (hagree : ∀ j, j < frames.length → frames'.get? j = frames.get? j) :
    ∀ fuel i, i < frames.length →
      chainEntries frames' fuel i = chainEntries frames fuel i := by
  intro fuel
  induction fuel with
  | zero =>
    intro i _
    rfl
  | succ fuel ih =>
    intro i hi
    unfold chainEntries
    rw [hagree i hi]
    cases hg : frames.get? i with
    | none => rfl
    | some f =>
      dsimp only
      cases hp : f.parent with
      | none => rfl
      | some j =>
        dsimp only [hp]
        have hj : j < i := framesWF_parent frames hwf i f hg j hp
        rw [ih j (by omega)]

/-- See `lookupChain_fuel_stable`, for the scope-chain enumeration. -/
theorem chainEntries_fuel_stable (frames : List ScopeObj)
    (hwf : framesWF frames = true) :
    ∀ (i f1 f2 : Nat), i < f1 → i < f2 →
    chainEntries frames f1 i = chainEntries frames f2 i := by
  intro i
  induction i using Nat.strong_induction_on with
  | _ i ih =>
    intro f1 f2 h1 h2
    obtain ⟨a, rfl⟩ : ∃ a, f1 = a + 1 := ⟨f1 - 1, by omega⟩
    obtain ⟨b, rfl⟩ : ∃ b, f2 = b + 1 := ⟨f2 - 1, by omega⟩
    unfold chainEntries
    cases hg : frames.get? i with
    | none => rfl
    | some f =>
      dsimp only
      cases hp : f.parent with
      | none => rfl
      | some j =>
        dsimp only [hp]
        have hj : j < i := framesWF_parent frames hwf i f hg j hp
        rw [ih j hj a b (by omega) (by omega)]

/-- A scope produced by `findScope` references the arena when the scope LUT
does. -/
theorem findScope_scope_lt (s : DocumentState) (p : LuaPos) (sc : LuaRange × Nat)
    (hall : s.walk.lutScopes.all (fun q => q.2 < s.walk.frames.length) = true)
    (h : findScope s p = some sc) : sc.2 < s.walk.frames.length := by
  unfold findScope at h
  cases hf : s.walk.lutScopes.reverse.find? (fun e => rangeContains e.1 p) with
  | some e =>
    rw [hf] at h
    injection h with h2
    subst h2
    have hm : e ∈ s.walk.lutScopes := List.mem_reverse.mp (List.mem_of_find?_eq_some hf)
    have := (List.all_eq_true.mp hall) e hm
    exact of_decide_eq_true this
  | none =>
    rw [hf] at h
    have hm : sc ∈ s.walk.lutScopes := List.mem_of_mem_head? h
    have := (List.all_eq_true.mp hall) sc hm
    exact of_decide_eq_true this

/-- A hit in the identifier LUT references the arena when the LUT does. -/
theorem findVariable_scope_lt (s : DocumentState) (p : LuaPos) (e : VarInfo)
    (hall : s.walk.lutVariables.all (fun q => q.2.scope < s.walk.frames.length) = true)
    (h : findVariable s p = some e) : e.scope < s.walk.frames.length := by
  unfold findVariable at h
  cases hf : s.walk.lutVariables.find? (fun q => q.1 == posKey p.line p.character) with
  | none =>
    rw [hf] at h
    exact Option.noConfusion h
  | some q =>
    rw [hf] at h
    injection h with h2
    subst h2
    have hm := List.mem_of_find?_eq_some hf
    have := (List.all_eq_true.mp hall) q hm
    exact of_decide_eq_true this

/-- C2 - parser-failure resilience: on a parse failure the handler returns
the inherited diagnostics plus exactly one syntax diagnostic positioned at
the parser's (1-based) line converted to 0-based and its column; the four
lookup tables are restored to the pre-edit snapshot; and both hover and
completion afterwards answer exactly as they did against that snapshot. -/
theorem claim_C2 (s : DocumentState) (e : ParseErr) (inc : List Diag)
    (hwf : docLutsWF s = true) :
    (processChangeParseFailure s e inc).2 = inc ++ [syntaxDiagnostic e] ∧
    (syntaxDiagnostic e).range.start.line = e.line - 1 ∧
    (syntaxDiagnostic e).range.start.character = e.column ∧
    (processChangeParseFailure s e inc).1.walk.lutVariables = s.walk.lutVariables ∧
    (processChangeParseFailure s e inc).1.walk.lutScopes = s.walk.lutScopes ∧
    (processChangeParseFailure s e inc).1.walk.lutFunctions = s.walk.lutFunctions ∧
    (processChangeParseFailure s e inc).1.walk.lutTables = s.walk.lutTables ∧
    (∀ range, handleOnHover (processChangeParseFailure s e inc).1 range
      = handleOnHover s range) ∧
    (∀ pos idf trig uri, handleOnCompletion (processChangeParseFailure s e inc).1
      pos idf trig uri = handleOnCompletion s pos idf trig uri) := by
  unfold docLutsWF at hwf
  simp only [Bool.and_eq_true] at hwf
  obtain ⟨⟨hwfF, hallV⟩, hallS⟩ := hwf
  have hagree : ∀ j, j < s.walk.frames.length →
      (processChangeParseFailure s e inc).1.walk.frames.get? j
        = s.walk.frames.get? j := by
    intro j hj
    show ((s.walk.frames ++ [({parent := none, vars := [], labels := [], tag := "global"} : ScopeObj)]).get? j)
      = s.walk.frames.get? j
    exact List.get?_append hj
  have hlen2 : (processChangeParseFailure s e inc).1.walk.frames.length
      = s.walk.frames.length + 1 := by
    show (s.walk.frames ++ [({parent := none, vars := [], labels := [], tag := "global"} : ScopeObj)]).length = _
    rw [List.length_append]
    rfl
  refine ⟨rfl, rfl, rfl, rfl, rfl, rfl, rfl, ?_, ?_⟩
  · intro range
    unfold handleOnHover
    have hfv : findVariable (processChangeParseFailure s e inc).1 range.start
        = findVariable s range.start := rfl
    rw [hfv]
    cases hv : findVariable s range.start with
    | none => rfl
    | some found =>
      dsimp only
      have hsc : found.scope < s.walk.frames.length :=
        findVariable_scope_lt s range.start found hallV hv
      rw [hagree found.scope hsc]
  · intro pos idf trig uri
    unfold handleOnCompletion
    have hfs : findScope (processChangeParseFailure s e inc).1 pos = findScope s pos := rfl
    cases trig with
    | false =>
      simp only [Bool.false_eq_true, if_false]
      rw [hfs]
      cases hsc : findScope s pos with
      | none => rfl
      | some sc =>
        dsimp only
        have hlt : sc.2 < s.walk.frames.length := findScope_scope_lt s pos sc hallS hsc
        have hce : chainEntries (processChangeParseFailure s e inc).1.walk.frames
            (processChangeParseFailure s e inc).1.walk.frames.length sc.2
            = chainEntries s.walk.frames s.walk.frames.length sc.2 := by
          rw [hlen2,
            chainEntries_agree s.walk.frames (processChangeParseFailure s e inc).1.walk.frames
              hwfF hagree (s.walk.frames.length + 1) sc.2 hlt]
          exact chainEntries_fuel_stable s.walk.frames hwfF sc.2
            (s.walk.frames.length + 1) s.walk.frames.length (by omega) (by omega)
        rw [hce]
    | true =>
      simp only [if_true]
      cases hidf : (idf != "") with
      | false =>
        simp only [Bool.false_eq_true, if_false]
        rfl
      | true =>
        simp only [if_true]
        rw [hfs]
        cases hsc : findScope s pos with
        | none => rfl
        | some sc =>
          dsimp only
          have hlt : sc.2 < s.walk.frames.length := findScope_scope_lt s pos sc hallS hsc
          have hlc : lookupChain (processChangeParseFailure s e inc).1.walk.frames
              (processChangeParseFailure s e inc).1.walk.frames.length sc.2 idf
              = lookupChain s.walk.frames s.walk.frames.length sc.2 idf := by
            rw [hlen2,
              lookupChain_agree s.walk.frames (processChangeParseFailure s e inc).1.walk.frames
                idf hwfF hagree (s.walk.frames.length + 1) sc.2 hlt]
            exact lookupChain_fuel_stable s.walk.frames idf hwfF sc.2
              (s.walk.frames.length + 1) s.walk.frames.length (by omega) (by omega)
          rw [hlc]

/-- Witness for C2: the concrete session `exDocument` (one identifier LUT
entry, one scope LUT entry) with the concrete failure `exParseErr`. -/
theorem claim_C2_witness :
    docLutsWF exDocument = true ∧
    ((processChangeParseFailure exDocument exParseErr []).2
        = [] ++ [syntaxDiagnostic exParseErr] ∧
      (syntaxDiagnostic exParseErr).range.start.line = exParseErr.line - 1 ∧
      (syntaxDiagnostic exParseErr).range.start.character = exParseErr.column ∧
      (processChangeParseFailure exDocument exParseErr []).1.walk.lutVariables
        = exDocument.walk.lutVariables ∧
      (processChangeParseFailure exDocument exParseErr []).1.walk.lutScopes
        = exDocument.walk.lutScopes ∧
      (processChangeParseFailure exDocument exParseErr []).1.walk.lutFunctions
        = exDocument.walk.lutFunctions ∧
      (processChangeParseFailure exDocument exParseErr []).1.walk.lutTables
        = exDocument.walk.lutTables ∧
      (∀ range, handleOnHover (processChangeParseFailure exDocument exParseErr []).1 range
        = handleOnHover exDocument range) ∧
      (∀ pos idf trig uri,
        handleOnCompletion (processChangeParseFailure exDocument exParseErr []).1
          pos idf trig uri = handleOnCompletion exDocument pos idf trig uri)) :=
  ⟨rfl, claim_C2 exDocument exParseErr [] rfl⟩
